import Mathlib

set_option autoImplicit false
set_option maxRecDepth 8192

/-!
# Reform Reconciliation & Upsert Engine — verification development

A shallow embedding of the reform reconciliation core of the
abundant-city-policy-atlas repository, translated from
`scripts/ingestion/db_utils.py` and `scripts/enrichment/ai_enrichment.py`,
together with theorems settling the specified properties.

Modelling conventions:
* Python dicts become structures with `Option`-typed fields; `none` models
  both a missing key and an explicit `None` value (noted where the code
  distinguishes them).
* SQL array columns become `Option (Finset String)`: `none` is NULL,
  `some ∅` an empty array.  Both are falsy in Python, which the code relies
  on; `arrFalsy` captures that.  The code merges arrays with
  `list(set(a + b))`, whose element order is unspecified, so `Finset` is the
  faithful carrier of the resulting value.
* Dates travel as ISO strings.  The store (Postgres) parses an incoming
  string into a `date`; for ISO-formatted inputs that amounts to keeping the
  first 10 characters, which `storeCanonDate` models.  The application's
  in-memory normalization uses the raw string; the store's uses the parsed
  date — the format-mismatch class the spec discusses lives exactly in this
  difference.
* Fallible code returns `Except PyErr`; an uncaught Python exception is an
  `Except.error`.
-/

namespace AtlasSpec

instance {ε α : Type} [DecidableEq ε] [DecidableEq α] : DecidableEq (Except ε α) := by
  intro x y
  cases x <;> cases y
  case error.error a b =>
    exact decidable_of_iff (a = b) (by simp)
  case error.ok a b =>
    exact isFalse (by simp)
  case ok.error a b =>
    exact isFalse (by simp)
  case ok.ok a b =>
    exact decidable_of_iff (a = b) (by simp)

/-- Python-level failures surfaced by the embedded code. -/
inductive PyErr where
  /-- `KeyError` from a `reform['k']` access on a dict without key `k`. -/
  | keyError (key : String)
  /-- `psycopg2` unique-constraint violation raised by the store at write time. -/
  | uniqueViolation
  /-- `NameError` from evaluating an unbound name. -/
  | nameError (name : String)
  /-- `ValueError` raised explicitly by the code. -/
  | valueError (msg : String)
deriving DecidableEq

/-- The parsed `ai_enriched_fields` JSON blob.  The code only ever inspects
the top-level `fields` object (an association list here; `none` models the
key being absent) and the dict's truthiness, for which the presence of any
other top-level key (`version`, `model`, ...) matters; `extraKeys` records
those other keys. -/
structure AIBlob where
  fields : Option (List (String × String)) := none
  extraKeys : List String := []
deriving DecidableEq

/-- Python truthiness of a parsed JSON dict: nonempty. -/
def blobTruthy (b : AIBlob) : Bool :=
  b.fields.isSome || !b.extraKeys.isEmpty

/-- A candidate reform record: one input dict of `bulk_upsert_reforms`.
`place_id = none` models a dict carrying no `place_id` key (the code accesses
it with `reform['place_id']`, so absence raises `KeyError`).
`reform_type_ids`/`reform_type_id` mirror the two accepted spellings of the
type set (`_dedupe_reforms.normalize_reform_type_ids`).  The source-metadata
fields (`reporter`, `source_url`, `source_notes`, `is_primary`) ride along in
the dict and are only read by `bulk_link_reform_sources`. -/
structure ReformRecord where
  place_id : Option Nat := none
  reform_type_ids : Option (List Nat) := none
  reform_type_id : Option Nat := none
  policy_document_id : Option Nat := none
  status : Option String := none
  scope : Option (Finset String) := none
  land_use : Option (Finset String) := none
  adoption_date : Option String := none
  summary : Option String := none
  requirements : Option (Finset String) := none
  notes : Option String := none
  reform_mechanism : Option String := none
  reform_phase : Option String := none
  legislative_number : Option String := none
  link_url : Option String := none
  reporter : Option String := none
  source_url : Option String := none
  source_notes : Option String := none
  is_primary : Option Bool := none
deriving DecidableEq

/-- A stored row of the `reforms` table (the columns the core touches). -/
structure ReformRow where
  id : Nat
  place_id : Nat
  policy_document_id : Option Nat := none
  status : Option String := none
  scope : Option (Finset String) := none
  land_use : Option (Finset String) := none
  adoption_date : Option String := none
  summary : Option String := none
  requirements : Option (Finset String) := none
  notes : Option String := none
  reform_mechanism : Option String := none
  reform_phase : Option String := none
  legislative_number : Option String := none
  link_url : Option String := none
  ai_enriched_fields : Option AIBlob := none
  ai_enrichment_version : Option Nat := none
  ai_enriched_at : Option Nat := none
deriving DecidableEq

/-- A row of the `reform_sources` junction table. -/
structure SourceRow where
  reform_id : Nat
  source_id : Nat
  reporter : Option String := none
  source_url : Option String := none
  notes : Option String := none
  is_primary : Bool := true
deriving DecidableEq

/-- A row of the `reform_citations` table. -/
structure CitationRow where
  reform_id : Nat
  citation_description : Option String := none
  citation_url : Option String := none
  citation_notes : Option String := none
deriving DecidableEq

/-- The store, as the core sees it.  `uniqueConstraint` says whether the
`reforms` table still carries its sentinel-based unique index (the comment at
the insert error handler says "we don't have unique constraints anymore", so
the current schema has it off; the flag keeps the write-time-rejection
behavior expressible).  `sources` is the `(id, short_name)` lookup table. -/
structure DBState where
  reforms : List ReformRow := []
  reform_reform_types : List (Nat × Nat) := []
  reform_sources : List SourceRow := []
  reform_citations : List CitationRow := []
  sources : List (Nat × String) := []
  nextId : Nat := 1
  uniqueConstraint : Bool := false
deriving DecidableEq

/-! ## Identity keys and normalization -/

/-- The sentinel date substituted for a NULL `adoption_date` in comparisons. -/
def sentinelDate : String := "1900-01-01"

/-- The store's canonicalization of an incoming date value: Postgres parses
the string into a `date`, which for ISO-formatted input keeps the first 10
characters (so `"2020-01-01T00:00:00"` and `"2020-01-01"` coincide in the
store while differing as raw strings). -/
def storeCanonDate (s : String) : String := s.take 10

/-- A deduplication / identity key, the Python tuple
`(place_id, policy_document_id)` or `(place_id, norm_date, norm_status)`. -/
inductive IdKey where
  | doc (placeId docId : Nat)
  | dateStatus (placeId : Nat) (normDate normStatus : String)
deriving DecidableEq

/-- `normalize_reform_type_ids` helper of `_dedupe_reforms`: accept the type
set under either key, a single value becoming a singleton list. -/
def normalize_reform_type_ids (r : ReformRecord) : List Nat :=
  match r.reform_type_ids with
  | some ids => ids
  | none =>
    match r.reform_type_id with
    | some i => [i]
    | none => []

/-- The identity key computed inside `_dedupe_reforms` (its NULL
normalization: sentinel date for a NULL `adoption_date`, `''` for a NULL
`status`).  `pid` is the value of the `reform['place_id']` access. -/
def dedupeKey (pid : Nat) (r : ReformRecord) : IdKey :=
  let adoption_date := r.adoption_date.getD sentinelDate
  let status := r.status.getD ""
  match r.policy_document_id with
  | some docId => .doc pid docId
  | none => .dateStatus pid adoption_date status

/-- `place_id` of a deduplicated record.  Every record `_dedupe_reforms`
returns carries a `place_id` (the code accessed `reform['place_id']` while
keying it), so the `getD 0` default is never exercised on dedupe output
(`dedupe_place_isSome` below). -/
def recPlace (r : ReformRecord) : Nat := r.place_id.getD 0

/-- In-batch identity key as recomputed inside `bulk_upsert_reforms` (lines
806-824 and again at 942-997): a string `adoption_date` passes through
unchanged, NULL becomes the sentinel, and `status` is `r.get('status') or ''`
(which, like `getD`, sends both `None` and `''` to `''`). -/
def recordKey (pid : Nat) (r : ReformRecord) : IdKey :=
  let norm_date := r.adoption_date.getD sentinelDate
  let norm_status := r.status.getD ""
  match r.policy_document_id with
  | some docId => .doc pid docId
  | none => .dateStatus pid norm_date norm_status

/-- Key of a deduplicated record, as `bulk_upsert_reforms` recomputes it. -/
def recKey (r : ReformRecord) : IdKey := recordKey (recPlace r) r

/-- Identity key of a stored row, as the existing-row query computes it:
`COALESCE(adoption_date, '1900-01-01'::date)` and `COALESCE(status, '')`,
with the returned date rendered back to its ISO string. -/
def rowKey (row : ReformRow) : IdKey :=
  let norm_date := row.adoption_date.getD sentinelDate
  let norm_status := row.status.getD ""
  match row.policy_document_id with
  | some docId => .doc row.place_id docId
  | none => .dateStatus row.place_id norm_date norm_status

/-! ## Python dict as an association list

Python dicts preserve insertion order; assignment to an existing key keeps
its position.  `dictFind`/`dictSet` model lookup and assignment. -/

def dictFind {κ β : Type} [DecidableEq κ] (k : κ) : List (κ × β) → Option β
  | [] => none
  | (k', v) :: rest => if k' = k then some v else dictFind k rest

def dictSet {κ β : Type} [DecidableEq κ] (k : κ) (v : β) : List (κ × β) → List (κ × β)
  | [] => [(k, v)]
  | (k', v') :: rest => if k' = k then (k', v) :: rest else (k', v') :: dictSet k v rest

/-! ## Intra-batch merge (`_dedupe_reforms`) -/

/-- Python falsiness of an array value: NULL or the empty array. -/
def arrFalsy (a : Option (Finset String)) : Bool :=
  match a with
  | none => true
  | some s => s = ∅

/-- Members of an array value (NULL contributes none). -/
def arrMembers (a : Option (Finset String)) : Finset String := a.getD ∅

/-- `merge_arrays` helper of `_dedupe_reforms` (lines 667-674): union of two
array values, with Python falsiness deciding the degenerate branches. -/
def merge_arrays (arr1 arr2 : Option (Finset String)) : Option (Finset String) :=
  if arrFalsy arr1 then
    if arrFalsy arr2 then none else arr2
  else if arrFalsy arr2 then arr1
  else
    let combined := arrMembers arr1 ∪ arrMembers arr2
    if combined = ∅ then none else some combined

/-- The scalar-field merge of `_dedupe_reforms` (lines 719-728): prefer
non-null, and when both sides are non-null take the later record's value. -/
def mergeScalar {α : Type} (existing new : Option α) : Option α :=
  match existing, new with
  | none, some v => some v
  | some _, some v => some v
  | e, none => e

/-- Merging a later record `new` into the record `existing` already stored
under the same key (lines 704-731).  Fields outside the merged set (place,
source metadata) stay those of `existing`, as `existing` is mutated in
place. -/
def mergeRecords (existing new : ReformRecord) : ReformRecord :=
  let combined_type_ids :=
    (normalize_reform_type_ids existing ++ normalize_reform_type_ids new).dedup
  { existing with
    reform_type_ids := some combined_type_ids
    scope := merge_arrays existing.scope new.scope
    land_use := merge_arrays existing.land_use new.land_use
    requirements := merge_arrays existing.requirements new.requirements
    status := mergeScalar existing.status new.status
    summary := mergeScalar existing.summary new.summary
    notes := mergeScalar existing.notes new.notes
    reform_mechanism := mergeScalar existing.reform_mechanism new.reform_mechanism
    reform_phase := mergeScalar existing.reform_phase new.reform_phase
    legislative_number := mergeScalar existing.legislative_number new.legislative_number
    link_url := mergeScalar existing.link_url new.link_url
    adoption_date := mergeScalar existing.adoption_date new.adoption_date
    policy_document_id := mergeScalar existing.policy_document_id new.policy_document_id }

/-- One iteration of the `_dedupe_reforms` loop.  A record with no reform
types is logged and skipped; the `reform['place_id']` access raises
`KeyError` when the key is missing; otherwise the record is merged into, or
appended to, the ordered dict. -/
def dedupeStep (deduped : List (IdKey × ReformRecord)) (reform : ReformRecord) :
    Except PyErr (List (IdKey × ReformRecord)) := do
  let reform_type_ids := normalize_reform_type_ids reform
  if reform_type_ids = [] then
    return deduped
  let pid ← match reform.place_id with
    | some p => pure p
    | none => throw (.keyError "place_id")
  let key := dedupeKey pid reform
  match dictFind key deduped with
  | some existing => return dictSet key (mergeRecords existing reform) deduped
  | none =>
      return deduped ++ [(key, { reform with
        reform_type_ids := some reform_type_ids, reform_type_id := none })]

/-- `_dedupe_reforms` (lines 643-740). -/
def dedupe_reforms (reforms : List ReformRecord) : Except PyErr (List ReformRecord) := do
  let deduped ← reforms.foldlM dedupeStep []
  return deduped.map Prod.snd

/-! ## Existing-row lookup, partition, insert and update
(`bulk_upsert_reforms`, lines 743-1011) -/

/-- The `WHERE` clause of the existing-row query (lines 767-779). -/
def queryFilter (place_ids policy_doc_ids : List Nat) (row : ReformRow) : Bool :=
  place_ids.contains row.place_id &&
    (if policy_doc_ids.isEmpty then row.policy_document_id.isNone
     else
       match row.policy_document_id with
       | some d => policy_doc_ids.contains d
       | none => true)

/-- The existing-reform map: query rows in range, key each by `rowKey`, a
later row overwriting an earlier one holding the same key (Python dict
assignment, lines 759-800). -/
def emapStep (m : List (IdKey × Nat)) (row : ReformRow) : List (IdKey × Nat) :=
  dictSet (rowKey row) row.id m

def existingMap (db : DBState) (deduped : List ReformRecord) : List (IdKey × Nat) :=
  let place_ids := deduped.map recPlace
  let policy_doc_ids := deduped.filterMap (fun r => r.policy_document_id)
  (db.reforms.filter (queryFilter place_ids policy_doc_ids)).foldl emapStep []

/-- One iteration of the partition loop (lines 806-831). -/
def partitionStep (emap : List (IdKey × Nat))
    (acc : List ReformRecord × List (Nat × ReformRecord)) (r : ReformRecord) :
    List ReformRecord × List (Nat × ReformRecord) :=
  match dictFind (recKey r) emap with
  | some eid => (acc.1, acc.2 ++ [(eid, r)])
  | none => (acc.1 ++ [r], acc.2)

/-- Partition of the deduplicated batch into insert candidates and
`(existing_id, record)` update candidates (lines 802-831). -/
def partitionReforms (emap : List (IdKey × Nat)) (deduped : List ReformRecord) :
    List ReformRecord × List (Nat × ReformRecord) :=
  deduped.foldl (partitionStep emap) ([], [])

/-- The row stored for an insert candidate (lines 839-863): true NULLs are
preserved; the store parses the date value; AI-enrichment columns are not in
the column list and default to NULL. -/
def rowOfRecord (id : Nat) (r : ReformRecord) : ReformRow :=
  { id := id
    place_id := recPlace r
    policy_document_id := r.policy_document_id
    status := r.status
    scope := r.scope
    land_use := r.land_use
    adoption_date := r.adoption_date.map storeCanonDate
    summary := r.summary
    requirements := r.requirements
    notes := r.notes
    reform_mechanism := r.reform_mechanism
    reform_phase := r.reform_phase
    legislative_number := r.legislative_number
    link_url := r.link_url }

/-- The bulk insert (lines 837-872).  When the schema still carries its
sentinel-based unique index, a row whose store-side identity collides with a
stored row (or an earlier row of the same statement) makes the store raise;
the handler logs and re-raises (`except psycopg2.Error: ... raise`), so the
error propagates and nothing of the statement commits. -/
def insertStep (acc : List Nat × DBState) (r : ReformRecord) :
    Except PyErr (List Nat × DBState) := do
  let db' := acc.2
  let row := rowOfRecord db'.nextId r
  if db'.uniqueConstraint && db'.reforms.any (fun ex => decide (rowKey ex = rowKey row)) then
    throw .uniqueViolation
  else
    return (acc.1 ++ [row.id],
      { db' with reforms := db'.reforms ++ [row], nextId := db'.nextId + 1 })

def insertReforms (db : DBState) (new_reforms : List ReformRecord) :
    Except PyErr (List Nat × DBState) :=
  new_reforms.foldlM insertStep ([], db)

/-- `merge_arrays_update` (lines 879-885): its body duplicates
`merge_arrays` verbatim, so it is the same function. -/
def merge_arrays_update (existing_arr new_arr : Option (Finset String)) :
    Option (Finset String) :=
  merge_arrays existing_arr new_arr

/-- SQL `COALESCE(new, old)`. -/
def coalesce {α : Type} (new old : Option α) : Option α :=
  match new with
  | some v => some v
  | none => old

/-- The UPDATE statement applied to one existing row (lines 887-932): arrays
are re-read and union-merged, scalars COALESCE'd (incoming non-null wins),
and `ai_enriched_fields` / `ai_enrichment_version` / `ai_enriched_at` are
absent from the SET list, hence unchanged. -/
def applyUpdate (row : ReformRow) (r : ReformRecord) : ReformRow :=
  { row with
    policy_document_id := coalesce r.policy_document_id row.policy_document_id
    scope := merge_arrays_update row.scope r.scope
    land_use := merge_arrays_update row.land_use r.land_use
    summary := coalesce r.summary row.summary
    requirements := merge_arrays_update row.requirements r.requirements
    notes := coalesce r.notes row.notes
    reform_mechanism := coalesce r.reform_mechanism row.reform_mechanism
    reform_phase := coalesce r.reform_phase row.reform_phase
    legislative_number := coalesce r.legislative_number row.legislative_number
    link_url := coalesce r.link_url row.link_url
    adoption_date := coalesce (r.adoption_date.map storeCanonDate) row.adoption_date
    status := coalesce r.status row.status }

/-- The update loop (lines 876-936): each hit appends the id and bumps
`updated_count`; a vanished row updates nothing and is not counted. -/
def updateStep (acc : List Nat × Nat × DBState) (er : Nat × ReformRecord) :
    List Nat × Nat × DBState :=
  let db' := acc.2.2
  if db'.reforms.any (fun row => row.id = er.1) then
    (acc.1 ++ [er.1], acc.2.1 + 1,
      { db' with reforms :=
          db'.reforms.map (fun row => if row.id = er.1 then applyUpdate row er.2 else row) })
  else
    (acc.1, acc.2.1, db')

def updateReforms (db : DBState) (update_reforms : List (Nat × ReformRecord)) :
    List Nat × Nat × DBState :=
  update_reforms.foldl updateStep ([], 0, db)

/-- The key-to-new-id map built after insertion (lines 942-964): zip the
insert candidates with the id list (whose prefix is exactly the new ids). -/
def buildNewIdMap (new_reforms : List ReformRecord) (ids : List Nat) : List (IdKey × Nat) :=
  (new_reforms.zip ids).foldl (fun m p => dictSet (recKey p.1) p.2 m) []

/-- The final id list in deduplicated order (lines 966-997): existing id if
the key is known, else the id from insertion, else `None` (logged). -/
def finalIds (emap newmap : List (IdKey × Nat)) (deduped : List ReformRecord) :
    List (Option Nat) :=
  deduped.map (fun r =>
    match dictFind (recKey r) emap with
    | some eid => some eid
    | none => dictFind (recKey r) newmap)

/-- The `(reform_id, reform_type_id)` pairs accumulated for type tagging
(lines 999-1006). -/
def typePairs (ids : List (Option Nat)) (deduped : List ReformRecord) : List (Nat × Nat) :=
  (ids.zip deduped).foldl
    (fun acc p =>
      match p.1 with
      | none => acc
      | some rid => acc ++ (p.2.reform_type_ids.getD []).map (fun t => (rid, t)))
    []

/-- `bulk_upsert_reform_reform_types` (lines 1014-1036):
`ON CONFLICT (reform_id, reform_type_id) DO NOTHING`. -/
def linkStep (ls : List (Nat × Nat)) (p : Nat × Nat) : List (Nat × Nat) :=
  if ls.contains p then ls else ls ++ [p]

def insertTypeLinks (links : List (Nat × Nat)) (pairs : List (Nat × Nat)) : List (Nat × Nat) :=
  pairs.foldl linkStep links

/-- Result of `bulk_upsert_reforms`:
`(created_count, updated_count, reform_ids, deduped_records)` plus the store. -/
structure UpsertResult where
  created : Nat
  updated : Nat
  reform_ids : List (Option Nat)
  deduped : List ReformRecord
  db : DBState
deriving DecidableEq

/-- `bulk_upsert_reforms` (lines 743-1011). -/
def bulk_upsert_reforms (db : DBState) (reforms : List ReformRecord) :
    Except PyErr UpsertResult := do
  let deduped ← dedupe_reforms reforms
  if deduped.isEmpty then
    return ⟨0, 0, [], [], db⟩
  let emap := existingMap db deduped
  let part := partitionReforms emap deduped
  let ins ← insertReforms db part.1
  let upd := updateReforms ins.2 part.2
  let all_ids := ins.1 ++ upd.1
  let newmap := buildNewIdMap part.1 all_ids
  let fids := finalIds emap newmap deduped
  let links := insertTypeLinks upd.2.2.reform_reform_types (typePairs fids deduped)
  return ⟨ins.1.length, upd.2.1, fids, deduped, { upd.2.2 with reform_reform_types := links }⟩

/-! ## Source & citation linking (`bulk_link_reform_sources`, lines 1072-1126) -/

/-- `ON CONFLICT (reform_id, source_id) DO UPDATE` (lines 1111-1122):
`reporter`, `source_url` and `notes` COALESCE the excluded (incoming) value
with the stored one; `is_primary` is set to `EXCLUDED.is_primary`
unconditionally. -/
def applySourceUpdate (old new : SourceRow) : SourceRow :=
  { old with
    reporter := coalesce new.reporter old.reporter
    source_url := coalesce new.source_url old.source_url
    notes := coalesce new.notes old.notes
    is_primary := new.is_primary }

/-- `bulk_link_reform_sources` (lines 1072-1126): resolve the source id,
deduplicate the zipped rows by `(reform_id, source_id)` keeping the first
occurrence, then upsert each row. -/
def bulk_link_reform_sources (db : DBState) (reform_ids : List Nat)
    (reforms : List ReformRecord) (source_short_name : String) :
    Except PyErr (Nat × DBState) := do
  if reform_ids.isEmpty || reforms.isEmpty then
    return (0, db)
  let source_id ← match db.sources.find? (fun s => s.2 = source_short_name) with
    | some s => pure s.1
    | none => throw (.valueError ("Source not found in sources table: " ++ source_short_name))
  let rows := (reform_ids.zip reforms).foldl
    (fun (acc : List SourceRow) p =>
      if acc.any (fun row => row.reform_id = p.1 && row.source_id = source_id) then acc
      else acc ++ [{ reform_id := p.1, source_id := source_id,
                     reporter := p.2.reporter, source_url := p.2.source_url,
                     notes := p.2.source_notes,
                     is_primary := p.2.is_primary.getD true }])
    []
  if rows.isEmpty then
    return (0, db)
  let table := rows.foldl
    (fun (t : List SourceRow) row =>
      if t.any (fun ex => ex.reform_id = row.reform_id && ex.source_id = row.source_id) then
        t.map (fun ex =>
          if ex.reform_id = row.reform_id && ex.source_id = row.source_id then
            applySourceUpdate ex row
          else ex)
      else t ++ [row])
    db.reform_sources
  return (rows.length, { db with reform_sources := table })

/-! ## Post-hoc merge resolver
(`merge_duplicate_reforms`, `ai_enrichment.py` lines 206-441) -/

/-- `SELECT * FROM reforms WHERE id = %s` with `fetchone`. -/
def findRow (db : DBState) (rid : Nat) : Option ReformRow :=
  db.reforms.find? (fun row => row.id = rid)

/-- Python `a or b` on an optional string: both `None` and `''` are falsy. -/
def pyOrStr (a b : Option String) : Option String :=
  match a with
  | some s => if s = "" then b else some s
  | none => b

/-- Python `a or b` on an optional integer: both `None` and `0` are falsy. -/
def pyOrNat (a b : Option Nat) : Option Nat :=
  match a with
  | some n => if n = 0 then b else some n
  | none => b

/-- Python `a or b` on an array value: `None` and the empty array are falsy,
so a non-empty left side is taken wholesale. -/
def pyOrArr (a b : Option (Finset String)) : Option (Finset String) :=
  if arrFalsy a then b else a

/-- The `fields`-level merge of the two AI blobs (lines 269-277): the
duplicate's keys fill gaps in the target's `fields` dict; the target's
existing values win. -/
def mergeAIFields (dupData target : AIBlob) : AIBlob :=
  match dupData.fields with
  | none => target
  | some df =>
    let tf := target.fields.getD []
    let merged := df.foldl
      (fun acc kv => if (acc.map Prod.fst).contains kv.1 then acc else acc ++ [kv]) tf
    { target with fields := some merged }

/-- The AI-blob merge of `merge_duplicate_reforms` (lines 243-277): start
from the target's blob (or `{}`), pick the duplicate's data from the store if
truthy there, else the `enrichment_data` parameter, and fill field gaps. -/
def mergedAIData (param : Option AIBlob) (dup tgt : ReformRow) : AIBlob :=
  let target_ai_data := tgt.ai_enriched_fields.getD { fields := none, extraKeys := [] }
  let duplicate_ai_data :=
    match dup.ai_enriched_fields with
    | some b => if blobTruthy b then some b else param
    | none => param
  match duplicate_ai_data with
  | some d => if blobTruthy d then mergeAIFields d target_ai_data else target_ai_data
  | none => target_ai_data

/-- The loop inserting the duplicate's missing reform types into the target
(lines 394-417): `existing` is the pre-fetched set of the target's type ids;
each insert carries `ON CONFLICT DO NOTHING`. -/
def mergeTypeLinks (links : List (Nat × Nat)) (target_id : Nat)
    (dupTypes existing : List Nat) : List (Nat × Nat) :=
  dupTypes.foldl
    (fun ls t =>
      if existing.contains t then ls
      else if ls.contains (target_id, t) then ls
      else ls ++ [(target_id, t)])
    links

/-- The UPDATE applied to the target row (lines 280-324): every plain field
gets `COALESCE(merged, current)` where `merged` is the Python `or` of the
fetched duplicate's and target's values (loser first); the AI parameters are
passed as NULL when the merged blob is falsy. -/
def postHocRowUpdate (duplicate_reform target_reform : ReformRow)
    (enrichment_data : Option AIBlob) (version now : Nat) (row : ReformRow) : ReformRow :=
  let target_ai_data := mergedAIData enrichment_data duplicate_reform target_reform
  let aiTruthy := blobTruthy target_ai_data
  { row with
    ai_enriched_fields :=
      coalesce (if aiTruthy then some target_ai_data else none) row.ai_enriched_fields
    ai_enrichment_version :=
      coalesce (if aiTruthy then some version else none) row.ai_enrichment_version
    ai_enriched_at := coalesce (if aiTruthy then some now else none) row.ai_enriched_at
    scope := coalesce (pyOrArr duplicate_reform.scope target_reform.scope) row.scope
    land_use :=
      coalesce (pyOrArr duplicate_reform.land_use target_reform.land_use) row.land_use
    summary := coalesce (pyOrStr duplicate_reform.summary target_reform.summary) row.summary
    requirements :=
      coalesce (pyOrArr duplicate_reform.requirements target_reform.requirements)
        row.requirements
    notes := coalesce (pyOrStr duplicate_reform.notes target_reform.notes) row.notes
    link_url :=
      coalesce (pyOrStr duplicate_reform.link_url target_reform.link_url) row.link_url
    policy_document_id :=
      coalesce (pyOrNat duplicate_reform.policy_document_id target_reform.policy_document_id)
        row.policy_document_id
    legislative_number :=
      coalesce
        (pyOrStr duplicate_reform.legislative_number target_reform.legislative_number)
        row.legislative_number
    reform_mechanism :=
      coalesce (pyOrStr duplicate_reform.reform_mechanism target_reform.reform_mechanism)
        row.reform_mechanism
    reform_phase :=
      coalesce (pyOrStr duplicate_reform.reform_phase target_reform.reform_phase)
        row.reform_phase }

/-- The source-merge loop (lines 326-356): insert the duplicate's sources the
target lacks, checked against the pre-fetched set of the target's source ids;
the insert itself carries `ON CONFLICT (reform_id, source_id) DO NOTHING`. -/
def mergeSourceRows (table : List SourceRow) (duplicate_reform_id target_reform_id : Nat) :
    List SourceRow :=
  let duplicate_sources := table.filter (fun s => s.reform_id = duplicate_reform_id)
  let existing_source_ids :=
    (table.filter (fun s => s.reform_id = target_reform_id)).map (fun s => s.source_id)
  duplicate_sources.foldl
    (fun (t : List SourceRow) s =>
      if existing_source_ids.contains s.source_id then t
      else if t.any (fun ex =>
          ex.reform_id = target_reform_id && ex.source_id = s.source_id) then t
      else t ++ [{ s with reform_id := target_reform_id }])
    table

/-- The citation-merge loop (lines 358-392): copy the duplicate's citations
whose `(url or '', description or '')` key is missing from the pre-fetched
set of the target's keys (the set is not refreshed inside the loop). -/
def mergeCitationRows (table : List CitationRow)
    (duplicate_reform_id target_reform_id : Nat) : List CitationRow :=
  let duplicate_citations := table.filter (fun c => c.reform_id = duplicate_reform_id)
  let existing_citations :=
    (table.filter (fun c => c.reform_id = target_reform_id)).map
      (fun c => (c.citation_url.getD "", c.citation_description.getD ""))
  duplicate_citations.foldl
    (fun (t : List CitationRow) c =>
      if existing_citations.contains (c.citation_url.getD "", c.citation_description.getD "")
      then t
      else t ++ [{ c with reform_id := target_reform_id }])
    table

/-- Lines 394-431: the duplicate's types, then the triggering type
(`if reform_type_id:` is Python truthiness, so 0 behaves like `None`). -/
def mergeAllTypeLinks (links : List (Nat × Nat))
    (duplicate_reform_id target_reform_id : Nat) (reform_type_id : Option Nat) :
    List (Nat × Nat) :=
  let duplicate_reform_types :=
    (links.filter (fun p => p.1 = duplicate_reform_id)).map (fun p => p.2)
  let existing_reform_type_ids :=
    (links.filter (fun p => p.1 = target_reform_id)).map (fun p => p.2)
  let links₁ := mergeTypeLinks links target_reform_id
    duplicate_reform_types existing_reform_type_ids
  match reform_type_id with
  | some t =>
    if t ≠ 0 && !links₁.contains (target_reform_id, t) then
      links₁ ++ [(target_reform_id, t)]
    else links₁
  | none => links₁

/-- `merge_duplicate_reforms` (lines 206-441).  `version` and `now` stand for
`ENRICHMENT_VERSION` and the wall clock.  Returns the success flag and the
store; on any missing row it reports failure and changes nothing.  The final
step deletes the duplicate reform; CASCADE removes its junction rows
(lines 433-435). -/
def merge_duplicate_reforms (db : DBState) (duplicate_reform_id target_reform_id : Nat)
    (enrichment_data : Option AIBlob) (reform_type_id : Option Nat)
    (version now : Nat) : Bool × DBState :=
  match findRow db duplicate_reform_id, findRow db target_reform_id with
  | some duplicate_reform, some target_reform =>
    let reforms' := db.reforms.map (fun row =>
      if row.id = target_reform_id then
        postHocRowUpdate duplicate_reform target_reform enrichment_data version now row
      else row)
    let sources' := mergeSourceRows db.reform_sources duplicate_reform_id target_reform_id
    let citations' :=
      mergeCitationRows db.reform_citations duplicate_reform_id target_reform_id
    let links' :=
      mergeAllTypeLinks db.reform_reform_types duplicate_reform_id target_reform_id
        reform_type_id
    (true,
      { db with
        reforms := reforms'.filter (fun row => row.id ≠ duplicate_reform_id)
        reform_sources := sources'.filter (fun s => s.reform_id ≠ duplicate_reform_id)
        reform_citations := citations'.filter (fun c => c.reform_id ≠ duplicate_reform_id)
        reform_reform_types := links'.filter (fun p => p.1 ≠ duplicate_reform_id) })
  | _, _ => (false, db)

/-! ## Enrichment update path and driver
(`update_reform_enrichment` lines 444-497, `run_enrichment` lines 546-777) -/

/-- Outcome triple of `update_reform_enrichment`:
`(success, merged_reform_id, error_message)`. -/
structure EnrichUpdateResult where
  success : Bool
  merged_reform_id : Option Nat
  error_msg : Option String
deriving DecidableEq

/-- `update_reform_enrichment` (lines 444-497): write the AI columns and, if
a type suggestion resolved, the junction row.  `violation` says whether the
store raises a `UniqueViolation` on the write; the handler catches it and
returns a `MERGE_NEEDED` error for the caller to act on, leaving the
transaction to be rolled back (the store unchanged); no merge is performed
here. -/
def update_reform_enrichment (db : DBState) (reform_id : Nat) (blob : AIBlob)
    (version now : Nat) (reform_type_id : Option Nat) (violation : Bool) :
    EnrichUpdateResult × DBState :=
  if violation then
    ({ success := false, merged_reform_id := none,
       error_msg := some "MERGE_NEEDED: duplicate key value violates unique constraint" },
      db)
  else
    let reforms' := db.reforms.map (fun row =>
      if row.id = reform_id then
        { row with
          ai_enriched_fields := some blob
          ai_enrichment_version := some version
          ai_enriched_at := some now }
      else row)
    let links' :=
      match reform_type_id with
      | some t =>
        if t ≠ 0 && !db.reform_reform_types.contains (reform_id, t) then
          db.reform_reform_types ++ [(reform_id, t)]
        else db.reform_reform_types
      | none => db.reform_reform_types
    ({ success := true, merged_reform_id := none, error_msg := none },
      { db with reforms := reforms', reform_reform_types := links' })

/-- What the `run_enrichment` loop does with a failed update (lines 637-650):
whether or not the message starts with `MERGE_NEEDED:`, it rolls the item
back, counts it failed and continues — `merge_duplicate_reforms` is not
invoked ("merge logic has been simplified"). -/
inductive LoopAction where
  | proceed
  | rollbackSkip
deriving DecidableEq

/-- The failure branch of the loop body (lines 637-650). -/
def enrichment_failure_action (error_msg : Option String) : LoopAction :=
  match error_msg with
  | some m => if m.startsWith "MERGE_NEEDED:" then .rollbackSkip else .rollbackSkip
  | none => .rollbackSkip

/-- A row of the `ai_enrichment_runs` table (the columns the driver sets). -/
structure RunRow where
  id : Nat
  status : String
deriving DecidableEq

/-- The store as the enrichment driver sees it. -/
structure EnrichDB where
  reforms : List ReformRow := []
  runs : List RunRow := []
deriving DecidableEq

/-- One connection: committed store plus the pending transaction view. -/
structure Conn where
  committed : EnrichDB
  pending : EnrichDB
deriving DecidableEq

/-- `conn.commit()`. -/
def commitConn (c : Conn) : Conn := { c with committed := c.pending }

/-- `update_enrichment_run(..., status=...)` restricted to the status column
(lines 529-543). -/
def update_enrichment_run_status (db : EnrichDB) (run_id : Nat) (status : String) : EnrichDB :=
  { db with runs := db.runs.map (fun run =>
      if run.id = run_id then { run with status := status } else run) }

/-- The local names `run_enrichment` has bound by the time control reaches
the `duration` assignment at line 585: its parameters and the assignments at
lines 555-577.  `start_time` is assigned nowhere in the function (nor at
module level), which is what the name lookup below consults. -/
def runEnrichmentLocals : List String :=
  ["limit", "reform_id", "force", "conn", "cursor", "run_id",
   "provider_kwargs", "ai_provider", "version", "reforms"]

/-- Observable outcome of `run_enrichment` from the reform-selection step on. -/
structure EnrichOutcome where
  conn : Conn
  result : Except PyErr Unit
  reformsProcessed : Nat
  perReformCommits : Nat

/-- `run_enrichment` from the reform-selection step (lines 577-614): whatever
`find_unenriched_reforms` returned, line 582 marks the run `completed` and
line 583 commits; line 585 then evaluates
`(datetime.now(timezone.utc) - start_time).total_seconds()`, whose name
lookup for `start_time` misses every bound local, raising `NameError`.  The
`except` handler at line 753 evaluates the same expression and raises the
same `NameError` before its status update, so the error propagates with the
run left `completed`.  Even absent the error, line 606 returns before the
per-reform loop at line 614, so the loop body never runs. -/
def run_enrichment_post_selection (c : Conn) (run_id : Nat)
    (reforms : List ReformRow) : EnrichOutcome :=
  let c₁ := { c with pending := update_enrichment_run_status c.pending run_id "completed" }
  let c₂ := commitConn c₁
  if runEnrichmentLocals.contains "start_time" then
    { conn := c₂, result := .ok (), reformsProcessed := 0, perReformCommits := 0 }
  else
    { conn := c₂, result := .error (.nameError "start_time"),
      reformsProcessed := 0, perReformCommits := 0 }

/-! ## Derived notions used by the statements -/

/-- The merge contract for one scalar field: the non-null side wins, and the
later record's value wins when both are non-null. -/
def scalarMergeSpec {α : Type} (a b c : Option α) : Prop :=
  (a = none → c = b) ∧ (b = none → c = a) ∧ ∀ v, b = some v → c = some v

/-- Equality of the three AI-enrichment columns of two rows. -/
def aiEq (a b : ReformRow) : Prop :=
  a.ai_enriched_fields = b.ai_enriched_fields ∧
  a.ai_enrichment_version = b.ai_enrichment_version ∧
  a.ai_enriched_at = b.ai_enriched_at

/-! ## Concrete instances used by witnesses and counterexamples -/

/-- A plain candidate record for place 5 with one type tag and scope A. -/
def recA : ReformRecord :=
  { place_id := some 5, reform_type_ids := some [3], scope := some {"A"} }

/-- Like `recA` but scope B. -/
def recB : ReformRecord :=
  { place_id := some 5, reform_type_ids := some [3], scope := some {"B"} }

/-- A record with `policy_document_id = 42` and an adoption date. -/
def rec42 : ReformRecord :=
  { place_id := some 5, reform_type_ids := some [3],
    policy_document_id := some 42, adoption_date := some "2020-01-01" }

/-- A stored row with the same `policy_document_id` but a different date. -/
def row42 : ReformRow :=
  { id := 9, place_id := 5, policy_document_id := some 42,
    adoption_date := some "2021-06-01" }

/-- A store holding only `row42`. -/
def db42 : DBState := { reforms := [row42], nextId := 10 }

/-- A record with reform types but no `place_id` key. -/
def recNoPlace : ReformRecord := { reform_type_ids := some [1] }

/-- A record with a `place_id` but an empty reform-type set. -/
def recNoTypes : ReformRecord := { place_id := some 5 }

/-- The loser row of the post-hoc merge counterexample: scope A. -/
def dupRow3 : ReformRow := { id := 1, place_id := 5, scope := some {"A"} }

/-- The target row of the post-hoc merge counterexample: scope B. -/
def tgtRow3 : ReformRow := { id := 2, place_id := 5, scope := some {"B"} }

/-- A store holding the two colliding reforms, tagged with types 1 and 2. -/
def db3 : DBState :=
  { reforms := [dupRow3, tgtRow3], reform_reform_types := [(1, 1), (2, 2)], nextId := 3 }

/-- A stored source link with `is_primary = false` and a reporter. -/
def srcRow8 : SourceRow :=
  { reform_id := 1, source_id := 7, reporter := some "x", is_primary := false }

/-- A store holding that link and a `sources` row named `src`. -/
def db8 : DBState := { reform_sources := [srcRow8], sources := [(7, "src")] }

/-- A payload dict carrying no source-metadata fields at all. -/
def recBare : ReformRecord := {}

/-- A stored row whose date the store holds in canonical ISO form. -/
def exRow1 : ReformRow := { id := 1, place_id := 5, adoption_date := some "2020-01-01" }

/-- A store holding `exRow1`, with the sentinel-based unique index present. -/
def exDB1 : DBState := { reforms := [exRow1], nextId := 2, uniqueConstraint := true }

/-- An incoming record whose date string carries a time suffix: the raw
string differs from the stored date, but the store parses both to the same
day. -/
def exRec1 : ReformRecord :=
  { place_id := some 5, reform_type_ids := some [3],
    adoption_date := some "2020-01-01T00:00:00" }

/-! ## Notions for the idempotence statement -/

/-- A well-formed store: distinct row ids, all below the id counter.  (Both
hold of the real store, whose primary key is generated by a sequence.) -/
def DBWF (db : DBState) : Prop :=
  db.reforms.Pairwise (fun a b => a.id ≠ b.id) ∧ ∀ row ∈ db.reforms, row.id < db.nextId

/-- A well-formed input record: its date string is already in the store's
canonical form (otherwise the raw-string key and the stored-date key diverge,
the format-mismatch class the spec itself flags), and array fields are either
absent or non-empty (an explicitly empty array is stored as `{}` by the
insert but collapses to NULL under the update path's falsy-aware merge). -/
def WFRecord (r : ReformRecord) : Prop :=
  (∀ d ∈ r.adoption_date, storeCanonDate d = d) ∧
  r.scope ≠ some ∅ ∧ r.land_use ≠ some ∅ ∧ r.requirements ≠ some ∅

/-- The place component of an identity key. -/
def keyPlace : IdKey → Nat
  | .doc p _ => p
  | .dateStatus p _ _ => p

/-- The row transformation the update loop amounts to when its target ids
are distinct: apply the matching record's UPDATE, if any. -/
def updFun (ups : List (Nat × ReformRecord)) (row : ReformRow) : ReformRow :=
  match ups.find? (fun er => er.1 = row.id) with
  | some er => applyUpdate row er.2
  | none => row

/-- The rows the bulk insert appends, ids counting up from `start`. -/
def insertedRows (start : Nat) : List ReformRecord → List ReformRow
  | [] => []
  | r :: rest => rowOfRecord start r :: insertedRows (start + 1) rest

/-! ## General lemmas -/

theorem bindOk {ε α β : Type} (a : α) (f : α → Except ε β) :
    (Except.ok a >>= f) = f a := rfl

theorem merge_arrays_update_eq (a b : Option (Finset String)) :
    merge_arrays_update a b = merge_arrays a b := rfl

theorem arrMembers_merge_arrays (a b : Option (Finset String)) :
    arrMembers (merge_arrays a b) = arrMembers a ∪ arrMembers b := by
  cases a with
  | none =>
    cases b with
    | none => simp [merge_arrays, arrFalsy, arrMembers]
    | some s =>
      by_cases hs : s = ∅ <;> simp [merge_arrays, arrFalsy, arrMembers, hs]
  | some s =>
    by_cases hs : s = ∅
    · cases b with
      | none => simp [merge_arrays, arrFalsy, arrMembers, hs]
      | some t =>
        by_cases ht : t = ∅ <;> simp [merge_arrays, arrFalsy, arrMembers, hs, ht]
    · cases b with
      | none => simp [merge_arrays, arrFalsy, arrMembers, hs]
      | some t =>
        by_cases ht : t = ∅
        · simp [merge_arrays, arrFalsy, arrMembers, hs, ht]
        · by_cases hu : s ∪ t = ∅ <;>
            simp [merge_arrays, arrFalsy, arrMembers, hs, ht, hu]

theorem mergeScalar_spec {α : Type} (a b : Option α) :
    scalarMergeSpec a b (mergeScalar a b) := by
  cases a <;> cases b <;> simp [mergeScalar, scalarMergeSpec]

theorem dictFind_dictSet_eq {κ β : Type} [DecidableEq κ] (k : κ) (v : β)
    (m : List (κ × β)) : dictFind k (dictSet k v m) = some v := by
  induction m with
  | nil => simp [dictFind, dictSet]
  | cons kv rest ih =>
    by_cases h : kv.1 = k <;> simp [dictFind, dictSet, h, ih]

theorem dictFind_dictSet_ne {κ β : Type} [DecidableEq κ] (k k' : κ) (v : β)
    (m : List (κ × β)) (h : k' ≠ k) :
    dictFind k' (dictSet k v m) = dictFind k' m := by
  induction m with
  | nil =>
    simp only [dictSet, dictFind]
    rw [if_neg (fun hh => h hh.symm)]
  | cons kv rest ih =>
    by_cases hk : kv.1 = k
    · subst hk
      simp only [dictSet, if_pos rfl, dictFind]
      rw [if_neg (fun hh => h hh.symm), if_neg (fun hh => h hh.symm)]
    · simp only [dictSet, if_neg hk, dictFind]
      by_cases hk' : kv.1 = k' <;> simp [hk', ih]

theorem dictFind_mem {κ β : Type} [DecidableEq κ] (k : κ) (v : β)
    (m : List (κ × β)) (h : dictFind k m = some v) : (k, v) ∈ m := by
  induction m with
  | nil => simp [dictFind] at h
  | cons kv rest ih =>
    by_cases hk : kv.1 = k
    · simp only [dictFind, if_pos hk] at h
      cases h
      subst hk
      cases kv
      exact List.mem_cons_self _ _
    · simp only [dictFind, if_neg hk] at h
      exact List.mem_cons_of_mem _ (ih h)

theorem partition_foldl_update_mem (emap : List (IdKey × Nat))
    (l : List ReformRecord) (acc : List ReformRecord × List (Nat × ReformRecord))
    (r : ReformRecord) (eid : Nat)
    (h : (eid, r) ∈ acc.2 ∨ (r ∈ l ∧ dictFind (recKey r) emap = some eid)) :
    (eid, r) ∈ (l.foldl (partitionStep emap) acc).2 := by
  induction l generalizing acc with
  | nil =>
    rcases h with h | ⟨hmem, _⟩
    · exact h
    · exact absurd hmem (List.not_mem_nil r)
  | cons x xs ih =>
    simp only [List.foldl_cons]
    apply ih
    rcases h with h | ⟨hmem, hfind⟩
    · left
      unfold partitionStep
      cases dictFind (recKey x) emap <;> simp [h]
    · rcases List.mem_cons.mp hmem with rfl | hmem'
      · left
        unfold partitionStep
        rw [hfind]
        simp
      · right
        exact ⟨hmem', hfind⟩

theorem applyUpdate_ai (row : ReformRow) (r : ReformRecord) :
    aiEq (applyUpdate row r) row := ⟨rfl, rfl, rfl⟩

theorem updateReforms_foldl_mem (ups : List (Nat × ReformRecord))
    (acc : List Nat × Nat × DBState) (row' : ReformRow)
    (h : row' ∈ (ups.foldl updateStep acc).2.2.reforms) :
    ∃ row ∈ acc.2.2.reforms, row.id = row'.id ∧ aiEq row' row := by
  induction ups generalizing acc with
  | nil =>
    exact ⟨row', h, rfl, rfl, rfl, rfl⟩
  | cons e rest ih =>
    simp only [List.foldl_cons] at h
    obtain ⟨row, hrow, hid, hai⟩ := ih _ h
    unfold updateStep at hrow
    by_cases hc : acc.2.2.reforms.any (fun row => row.id = e.1)
    · simp only [if_pos hc] at hrow
      obtain ⟨row₀, hrow₀, heq⟩ := List.mem_map.mp hrow
      refine ⟨row₀, hrow₀, ?_, ?_⟩
      · rw [← hid, ← heq]
        by_cases hid₀ : row₀.id = e.1
        · rw [if_pos hid₀]
          rfl
        · rw [if_neg hid₀]
      · rw [← heq] at hai
        by_cases hid₀ : row₀.id = e.1
        · rw [if_pos hid₀] at hai
          exact hai
        · rw [if_neg hid₀] at hai
          exact hai
    · simp only [if_neg hc] at hrow
      exact ⟨row, hrow, hid, hai⟩

/-! ## C10 — the enrichment driver always raises before its loop -/

/-- C10: every invocation of `run_enrichment` that reaches the
reform-selection step marks the run `completed` and commits, then evaluates
the duration expression whose name lookup for `start_time` fails, so it
raises `NameError` before the per-reform loop: the loop never executes, no
per-reform commit happens, and the committed reforms (in particular their
`ai_enriched_fields`) are exactly the pending ones from before the call. -/
theorem C10_run_enrichment_always_raises (c : Conn) (run_id : Nat)
    (reforms : List ReformRow) :
    (run_enrichment_post_selection c run_id reforms).result
        = .error (.nameError "start_time") ∧
    (run_enrichment_post_selection c run_id reforms).conn.committed
        = update_enrichment_run_status c.pending run_id "completed" ∧
    (run_enrichment_post_selection c run_id reforms).conn.committed.reforms
        = c.pending.reforms ∧
    (run_enrichment_post_selection c run_id reforms).reformsProcessed = 0 ∧
    (run_enrichment_post_selection c run_id reforms).perReformCommits = 0 := by
  refine ⟨rfl, rfl, rfl, rfl, rfl⟩

/-! ## C4 — ingestion updates never touch the AI-enrichment columns -/

/-- C4: the UPDATE statement used by the reconciliation engine leaves
`ai_enriched_fields`, `ai_enrichment_version` and `ai_enriched_at` exactly
unchanged while unioning the incoming scope into the stored one, and every
row present after the engine's update pass has the same AI-enrichment
columns as a row of the same id present before it. -/
theorem C4_enrichment_immunity :
    (∀ (row : ReformRow) (r : ReformRecord),
        aiEq (applyUpdate row r) row ∧
        arrMembers (applyUpdate row r).scope = arrMembers row.scope ∪ arrMembers r.scope) ∧
    (∀ (db : DBState) (ups : List (Nat × ReformRecord)) (row' : ReformRow),
        row' ∈ (updateReforms db ups).2.2.reforms →
        ∃ row ∈ db.reforms, row.id = row'.id ∧ aiEq row' row) := by
  constructor
  · intro row r
    refine ⟨applyUpdate_ai row r, ?_⟩
    show arrMembers (merge_arrays_update row.scope r.scope) = _
    rw [merge_arrays_update_eq, arrMembers_merge_arrays]
  · intro db ups row' h
    exact updateReforms_foldl_mem ups ([], 0, db) row' h

/-- Witness for C4 at a concrete enriched row re-ingested with new scope. -/
theorem C4_enrichment_immunity_witness :
    ∃ row ∈ (DBState.reforms
        { reforms := [{ id := 1, place_id := 5, scope := some {"A"},
                        ai_enriched_fields := some { fields := some [("summary", "s")] },
                        ai_enrichment_version := some 1, ai_enriched_at := some 0 }] }),
      ∀ row' ∈ (updateReforms
          { reforms := [{ id := 1, place_id := 5, scope := some {"A"},
                          ai_enriched_fields := some { fields := some [("summary", "s")] },
                          ai_enrichment_version := some 1, ai_enriched_at := some 0 }] }
          [(1, recB)]).2.2.reforms,
        row.id = row'.id ∧ aiEq row' row := by
  obtain ⟨-, h2⟩ := C4_enrichment_immunity
  refine ⟨_, List.mem_cons_self _ _, ?_⟩
  intro row' hmem
  obtain ⟨row, hrow, hid, hai⟩ := h2 _ [(1, recB)] row' hmem
  have hr := List.mem_singleton.mp hrow
  subst hr
  exact ⟨hid, hai⟩

/-! ## C5 — intra-batch union merge -/

theorem dedupeStep_new (deduped : List (IdKey × ReformRecord)) (r : ReformRecord)
    (p : Nat) (h : r.place_id = some p) (ht : normalize_reform_type_ids r ≠ [])
    (hfind : dictFind (dedupeKey p r) deduped = none) :
    dedupeStep deduped r = .ok (deduped ++ [(dedupeKey p r,
      { r with reform_type_ids := some (normalize_reform_type_ids r),
               reform_type_id := none })]) := by
  simp only [dedupeStep, ht, h, pure_bind, hfind, if_false]
  rfl

theorem dedupeStep_merge (deduped : List (IdKey × ReformRecord)) (r ex : ReformRecord)
    (p : Nat) (h : r.place_id = some p) (ht : normalize_reform_type_ids r ≠ [])
    (hfind : dictFind (dedupeKey p r) deduped = some ex) :
    dedupeStep deduped r = .ok (dictSet (dedupeKey p r) (mergeRecords ex r) deduped) := by
  simp only [dedupeStep, ht, h, pure_bind, hfind, if_false]
  rfl

theorem dedupe_pair (r1 r2 : ReformRecord) (p : Nat)
    (h1 : r1.place_id = some p) (h2 : r2.place_id = some p)
    (ht1 : normalize_reform_type_ids r1 ≠ []) (ht2 : normalize_reform_type_ids r2 ≠ [])
    (hkey : dedupeKey p r1 = dedupeKey p r2) :
    dedupe_reforms [r1, r2] =
      .ok [mergeRecords
        { r1 with reform_type_ids := some (normalize_reform_type_ids r1),
                  reform_type_id := none } r2] := by
  have e1 := dedupeStep_new [] r1 p h1 ht1 rfl
  have hfind2 : dictFind (dedupeKey p r2)
      [(dedupeKey p r1,
        { r1 with reform_type_ids := some (normalize_reform_type_ids r1),
                  reform_type_id := none })]
      = some { r1 with reform_type_ids := some (normalize_reform_type_ids r1),
                       reform_type_id := none } := by
    simp [dictFind, hkey]
  have e2 := dedupeStep_merge _ r2 _ p h2 ht2 hfind2
  have hset : dictSet (dedupeKey p r2)
      (mergeRecords
        { r1 with reform_type_ids := some (normalize_reform_type_ids r1),
                  reform_type_id := none } r2)
      [(dedupeKey p r1,
        { r1 with reform_type_ids := some (normalize_reform_type_ids r1),
                  reform_type_id := none })]
      = [(dedupeKey p r1,
          mergeRecords
            { r1 with reform_type_ids := some (normalize_reform_type_ids r1),
                      reform_type_id := none } r2)] := by
    simp [dictSet, hkey]
  unfold dedupe_reforms
  simp only [List.foldlM_cons, List.foldlM_nil]
  rw [e1, bindOk]
  simp only [List.nil_append]
  rw [e2, hset]
  rfl

/-- C5: two records of one batch sharing an identity key are merged to a
single record: the type sets are unioned, the array fields are set unions,
and each scalar field is the non-null side when exactly one side is non-null
and the later record's value when both are. -/
theorem C5_union_merge (r1 r2 : ReformRecord) (p : Nat)
    (h1 : r1.place_id = some p) (h2 : r2.place_id = some p)
    (ht1 : normalize_reform_type_ids r1 ≠ []) (ht2 : normalize_reform_type_ids r2 ≠ [])
    (hkey : dedupeKey p r1 = dedupeKey p r2) :
    ∃ m, dedupe_reforms [r1, r2] = .ok [m] ∧
      (∀ t, t ∈ m.reform_type_ids.getD []
          ↔ (t ∈ normalize_reform_type_ids r1 ∨ t ∈ normalize_reform_type_ids r2)) ∧
      arrMembers m.scope = arrMembers r1.scope ∪ arrMembers r2.scope ∧
      arrMembers m.land_use = arrMembers r1.land_use ∪ arrMembers r2.land_use ∧
      arrMembers m.requirements = arrMembers r1.requirements ∪ arrMembers r2.requirements ∧
      scalarMergeSpec r1.status r2.status m.status ∧
      scalarMergeSpec r1.summary r2.summary m.summary ∧
      scalarMergeSpec r1.notes r2.notes m.notes ∧
      scalarMergeSpec r1.reform_mechanism r2.reform_mechanism m.reform_mechanism ∧
      scalarMergeSpec r1.reform_phase r2.reform_phase m.reform_phase ∧
      scalarMergeSpec r1.legislative_number r2.legislative_number m.legislative_number ∧
      scalarMergeSpec r1.link_url r2.link_url m.link_url ∧
      scalarMergeSpec r1.adoption_date r2.adoption_date m.adoption_date ∧
      scalarMergeSpec r1.policy_document_id r2.policy_document_id m.policy_document_id := by
  refine ⟨_, dedupe_pair r1 r2 p h1 h2 ht1 ht2 hkey, ?_,
    arrMembers_merge_arrays _ _, arrMembers_merge_arrays _ _, arrMembers_merge_arrays _ _,
    mergeScalar_spec _ _, mergeScalar_spec _ _, mergeScalar_spec _ _,
    mergeScalar_spec _ _, mergeScalar_spec _ _, mergeScalar_spec _ _,
    mergeScalar_spec _ _, mergeScalar_spec _ _, mergeScalar_spec _ _⟩
  intro t
  show t ∈ (normalize_reform_type_ids r1 ++ normalize_reform_type_ids r2).dedup ↔ _
  rw [List.mem_dedup, List.mem_append]

/-- Witness for C5: scope A and scope B merge to a single record holding
both members. -/
theorem C5_union_merge_witness :
    recA.place_id = some 5 ∧ recB.place_id = some 5 ∧
    normalize_reform_type_ids recA ≠ [] ∧ normalize_reform_type_ids recB ≠ [] ∧
    dedupeKey 5 recA = dedupeKey 5 recB ∧
    ∃ m, dedupe_reforms [recA, recB] = .ok [m] ∧
      arrMembers m.scope = arrMembers recA.scope ∪ arrMembers recB.scope := by
  refine ⟨rfl, rfl, by decide, by decide, by decide, ?_⟩
  obtain ⟨m, hm, -, hscope, -⟩ :=
    C5_union_merge recA recB 5 rfl rfl (by decide) (by decide) (by decide)
  exact ⟨m, hm, hscope⟩

/-! ## C2 — the identity key and its use -/

/-- C2: for records and stored rows alike, the identity key is
`(place_id, policy_document_id)` when the document id is set — so the
adoption date is ignored there — and otherwise
`(place_id, adoption_date normalized to 1900-01-01, status normalized to '')`;
the grouping key of `_dedupe_reforms` and the lookup key recomputed in
`bulk_upsert_reforms` agree; the sentinels exist only in keys, never in a
stored row; and a record whose key already names an existing row id is
classified as an update of exactly that row. -/
theorem C2_identity_key :
    (∀ (p : Nat) (r : ReformRecord), r.place_id = some p → recKey r = dedupeKey p r) ∧
    (∀ (p d : Nat) (r : ReformRecord), r.policy_document_id = some d →
        dedupeKey p r = .doc p d) ∧
    (∀ (p : Nat) (r : ReformRecord), r.policy_document_id = none →
        dedupeKey p r =
          .dateStatus p (r.adoption_date.getD "1900-01-01") (r.status.getD "")) ∧
    (∀ (row : ReformRow) (d : Nat), row.policy_document_id = some d →
        rowKey row = .doc row.place_id d) ∧
    (∀ row : ReformRow, row.policy_document_id = none →
        rowKey row =
          .dateStatus row.place_id (row.adoption_date.getD "1900-01-01")
            (row.status.getD "")) ∧
    (∀ (i : Nat) (r : ReformRecord),
        (r.adoption_date = none → (rowOfRecord i r).adoption_date = none) ∧
        (r.status = none → (rowOfRecord i r).status = none)) ∧
    (∀ (emap : List (IdKey × Nat)) (deduped : List ReformRecord)
        (r : ReformRecord) (eid : Nat), r ∈ deduped →
        dictFind (recKey r) emap = some eid →
        (eid, r) ∈ (partitionReforms emap deduped).2) := by
  refine ⟨?_, ?_, ?_, ?_, ?_, ?_, ?_⟩
  · intro p r h
    have hp : recPlace r = p := by simp [recPlace, h]
    show recordKey (recPlace r) r = dedupeKey p r
    rw [hp]
    rfl
  · intro p d r h
    unfold dedupeKey
    rw [h]
  · intro p r h
    unfold dedupeKey
    rw [h]
    rfl
  · intro row d h
    unfold rowKey
    rw [h]
  · intro row h
    unfold rowKey
    rw [h]
    rfl
  · intro i r
    constructor
    · intro h
      show r.adoption_date.map storeCanonDate = none
      rw [h]
      rfl
    · intro h
      exact h
  · intro emap deduped r eid hmem hfind
    exact partition_foldl_update_mem emap deduped ([], []) r eid (Or.inr ⟨hmem, hfind⟩)

/-- Witness for C2: a record with document id 42 and date 2020-01-01 is
classified as an update of the stored row with document id 42 and date
2021-06-01. -/
theorem C2_identity_key_witness :
    rec42.place_id = some 5 ∧ rec42.policy_document_id = some 42 ∧
    rec42.adoption_date = some "2020-01-01" ∧ row42.adoption_date = some "2021-06-01" ∧
    recKey rec42 = dedupeKey 5 rec42 ∧
    dedupeKey 5 rec42 = .doc 5 42 ∧
    rowKey row42 = .doc row42.place_id 42 ∧
    dictFind (recKey rec42) (existingMap db42 [rec42]) = some 9 ∧
    (9, rec42) ∈ (partitionReforms (existingMap db42 [rec42]) [rec42]).2 := by
  obtain ⟨c1, c2, -, c4, -, -, c7⟩ := C2_identity_key
  exact ⟨rfl, rfl, rfl, rfl, c1 5 rec42 rfl, c2 5 42 rec42 rfl, c4 row42 42 rfl,
    by decide,
    c7 _ [rec42] rec42 9 (List.mem_singleton.mpr rfl) (by decide)⟩

/-! ## C9 — malformed records -/

theorem dedupeStep_skip (acc : List (IdKey × ReformRecord)) (r : ReformRecord)
    (h : normalize_reform_type_ids r = []) : dedupeStep acc r = .ok acc := by
  unfold dedupeStep
  rw [h]
  rfl

/-- A record with an empty reform-type set is skipped: deleting it from the
batch does not change the result. -/
theorem dedupe_skip_empty_types (pre post : List ReformRecord) (r : ReformRecord)
    (h : normalize_reform_type_ids r = []) :
    dedupe_reforms (pre ++ r :: post) = dedupe_reforms (pre ++ post) := by
  unfold dedupe_reforms
  rw [List.foldlM_append, List.foldlM_append]
  congr 2
  funext acc
  rw [List.foldlM_cons, dedupeStep_skip acc r h, bindOk]

/-- A record carrying reform types but no `place_id` key aborts the whole
batch with a `KeyError` (provided the records before it went through). -/
theorem dedupe_missing_place_fatal (pre post : List ReformRecord) (r : ReformRecord)
    (acc0 : List (IdKey × ReformRecord))
    (hpre : List.foldlM dedupeStep [] pre = .ok acc0)
    (hplace : r.place_id = none) (ht : normalize_reform_type_ids r ≠ []) :
    dedupe_reforms (pre ++ r :: post) = .error (.keyError "place_id") := by
  unfold dedupe_reforms
  rw [List.foldlM_append, hpre, bindOk, List.foldlM_cons]
  have hstep : dedupeStep acc0 r = .error (.keyError "place_id") := by
    simp only [dedupeStep, ht, hplace, if_false]
    rfl
  rw [hstep]
  rfl

/-- C9 counterexample: the batch `[recNoPlace, recA]` raises `KeyError`
instead of skipping the malformed record — the well-formed `recA` is lost
with it — while an empty-type-set record is indeed skipped. -/
theorem C9_counterexample :
    recNoPlace.place_id = none ∧
    dedupe_reforms [recNoPlace, recA] = .error (.keyError "place_id") ∧
    dedupe_reforms [recNoTypes, recA]
      = .ok [{ recA with reform_type_ids := some [3], reform_type_id := none }] := by
  refine ⟨rfl, by decide, by decide⟩

/-- C9 amended: a record with an empty reform-type set is reported and
skipped and the batch continues; but a record missing `place_id` raises
`KeyError` out of `_dedupe_reforms`, aborting the whole batch. -/
theorem C9_amended_malformed_records :
    (∀ (pre post : List ReformRecord) (r : ReformRecord),
        normalize_reform_type_ids r = [] →
        dedupe_reforms (pre ++ r :: post) = dedupe_reforms (pre ++ post)) ∧
    (∀ (pre post : List ReformRecord) (r : ReformRecord)
        (acc0 : List (IdKey × ReformRecord)),
        List.foldlM dedupeStep [] pre = .ok acc0 →
        r.place_id = none → normalize_reform_type_ids r ≠ [] →
        dedupe_reforms (pre ++ r :: post) = .error (.keyError "place_id")) :=
  ⟨dedupe_skip_empty_types, dedupe_missing_place_fatal⟩

/-- Witness for the amended C9 at concrete batches. -/
theorem C9_amended_malformed_records_witness :
    (normalize_reform_type_ids recNoTypes = [] ∧
      dedupe_reforms [recA, recNoTypes] = dedupe_reforms [recA]) ∧
    (List.foldlM dedupeStep [] [recA]
        = .ok [(IdKey.dateStatus 5 "1900-01-01" "",
            { recA with reform_type_ids := some [3], reform_type_id := none })] ∧
      recNoPlace.place_id = none ∧ normalize_reform_type_ids recNoPlace ≠ [] ∧
      dedupe_reforms [recA, recNoPlace] = .error (.keyError "place_id")) := by
  obtain ⟨c1, c2⟩ := C9_amended_malformed_records
  refine ⟨⟨by decide, ?_⟩, ⟨by decide, rfl, by decide, ?_⟩⟩
  · exact c1 [recA] [] recNoTypes (by decide)
  · exact c2 [recA] [] recNoPlace
      [(IdKey.dateStatus 5 "1900-01-01" "",
        { recA with reform_type_ids := some [3], reform_type_id := none })]
      (by decide) rfl (by decide)

/-! ## C3 — array merges: unions except in the post-hoc resolver -/

/-- C3 counterexample: merging loser scope A into target scope B via the
post-hoc resolver leaves the target with scope exactly A — the target's
member B is dropped, so the post-hoc array merge is not a union. -/
theorem C3_counterexample :
    "B" ∈ arrMembers tgtRow3.scope ∧
    ((merge_duplicate_reforms db3 1 2 none none 1 0).2.reforms.find?
        (fun row => row.id = 2)).map (fun row => row.scope)
      = some (some {"A"}) ∧
    "B" ∉ arrMembers (some ({"A"} : Finset String)) := by
  refine ⟨by decide, by decide, by decide⟩

/-- The post-hoc array fields are Python `or` then COALESCE, not unions. -/
theorem postHocRowUpdate_arrays (dupRow tgtRow : ReformRow) (ed : Option AIBlob)
    (v now : Nat) (row : ReformRow) :
    (postHocRowUpdate dupRow tgtRow ed v now row).scope
        = coalesce (pyOrArr dupRow.scope tgtRow.scope) row.scope ∧
    (postHocRowUpdate dupRow tgtRow ed v now row).land_use
        = coalesce (pyOrArr dupRow.land_use tgtRow.land_use) row.land_use ∧
    (postHocRowUpdate dupRow tgtRow ed v now row).requirements
        = coalesce (pyOrArr dupRow.requirements tgtRow.requirements) row.requirements :=
  ⟨rfl, rfl, rfl⟩

/-- The resolver really routes the target row through `postHocRowUpdate`. -/
theorem merge_duplicate_reforms_target_row (db : DBState) (dup tgt : Nat)
    (ed : Option AIBlob) (rt : Option Nat) (v now : Nat) (dupRow tgtRow : ReformRow)
    (hdup : findRow db dup = some dupRow) (htgt : findRow db tgt = some tgtRow)
    (hne : tgt ≠ dup) :
    ∀ row ∈ db.reforms, row.id = tgt →
      postHocRowUpdate dupRow tgtRow ed v now row
        ∈ (merge_duplicate_reforms db dup tgt ed rt v now).2.reforms := by
  intro row hmem hid
  simp only [merge_duplicate_reforms, hdup, htgt]
  rw [List.mem_filter]
  constructor
  · apply List.mem_map.mpr
    refine ⟨row, hmem, ?_⟩
    rw [if_pos hid]
  · rw [decide_eq_true_eq]
    show row.id ≠ dup
    rw [hid]
    exact hne

/-- C3 amended: the intra-batch merge and the reconciliation-engine update
merge arrays as exact set unions, but the Post-hoc Merge Resolver takes the
loser's array wholesale whenever it is non-empty (dropping target members
absent from it) and keeps the row's own value only when the Python `or` of
the two sides is NULL. -/
theorem C3_amended_array_merges :
    (∀ a b, arrMembers (merge_arrays a b) = arrMembers a ∪ arrMembers b) ∧
    (∀ a b, arrMembers (merge_arrays_update a b) = arrMembers a ∪ arrMembers b) ∧
    (∀ (dupRow tgtRow : ReformRow) (ed : Option AIBlob) (v now : Nat)
        (row : ReformRow),
        (postHocRowUpdate dupRow tgtRow ed v now row).scope
          = coalesce (pyOrArr dupRow.scope tgtRow.scope) row.scope ∧
        (arrFalsy dupRow.scope = false →
          (postHocRowUpdate dupRow tgtRow ed v now row).scope = dupRow.scope)) ∧
    (∀ (db : DBState) (dup tgt : Nat) (ed : Option AIBlob) (rt : Option Nat)
        (v now : Nat) (dupRow tgtRow : ReformRow),
        findRow db dup = some dupRow → findRow db tgt = some tgtRow → tgt ≠ dup →
        ∀ row ∈ db.reforms, row.id = tgt →
          postHocRowUpdate dupRow tgtRow ed v now row
            ∈ (merge_duplicate_reforms db dup tgt ed rt v now).2.reforms) := by
  refine ⟨?_, ?_, ?_, merge_duplicate_reforms_target_row⟩
  · exact arrMembers_merge_arrays
  · intro a b
    rw [merge_arrays_update_eq]
    exact arrMembers_merge_arrays a b
  · intro dupRow tgtRow ed v now row
    refine ⟨(postHocRowUpdate_arrays dupRow tgtRow ed v now row).1, ?_⟩
    intro hf
    rw [(postHocRowUpdate_arrays dupRow tgtRow ed v now row).1]
    unfold pyOrArr
    rw [hf]
    simp only [Bool.false_eq_true, if_false]
    cases hd : dupRow.scope with
    | none =>
      rw [hd] at hf
      simp [arrFalsy] at hf
    | some s => rfl

/-- Witness for the amended C3 at the concrete colliding pair. -/
theorem C3_amended_array_merges_witness :
    arrMembers (merge_arrays (some {"A"}) (some {"B"}))
        = arrMembers (some ({"A"} : Finset String)) ∪ arrMembers (some ({"B"} : Finset String)) ∧
    (arrFalsy dupRow3.scope = false ∧
      (postHocRowUpdate dupRow3 tgtRow3 none 1 0 tgtRow3).scope = dupRow3.scope) ∧
    (findRow db3 1 = some dupRow3 ∧ findRow db3 2 = some tgtRow3 ∧
      postHocRowUpdate dupRow3 tgtRow3 none 1 0 tgtRow3
        ∈ (merge_duplicate_reforms db3 1 2 none none 1 0).2.reforms) := by
  obtain ⟨c1, -, c3, c4⟩ := C3_amended_array_merges
  refine ⟨c1 _ _, ⟨by decide, (c3 dupRow3 tgtRow3 none 1 0 tgtRow3).2 (by decide)⟩,
    by decide, by decide, ?_⟩
  exact c4 db3 1 2 none none 1 0 dupRow3 tgtRow3 (by decide) (by decide) (by decide)
    tgtRow3 (by decide) rfl

/-! ## C7 — post-hoc merge unions the type sets and deletes the loser -/

theorem contains_mem {α : Type} [BEq α] [LawfulBEq α] {l : List α} {a : α}
    (h : l.contains a = true) : a ∈ l := List.elem_iff.mp h

theorem mem_contains {α : Type} [BEq α] [LawfulBEq α] {l : List α} {a : α}
    (h : a ∈ l) : l.contains a = true := List.elem_iff.mpr h

theorem mem_mergeTypeLinks (dupTypes : List Nat) (links : List (Nat × Nat)) (tgt : Nat)
    (existing : List Nat) (hex : ∀ t ∈ existing, (tgt, t) ∈ links) (q : Nat × Nat) :
    q ∈ mergeTypeLinks links tgt dupTypes existing
      ↔ (q ∈ links ∨ ∃ t ∈ dupTypes, q = (tgt, t)) := by
  induction dupTypes generalizing links with
  | nil => simp [mergeTypeLinks]
  | cons t rest ih =>
    show q ∈ mergeTypeLinks
        (if existing.contains t then links
         else if links.contains (tgt, t) then links else links ++ [(tgt, t)])
        tgt rest existing ↔ _
    by_cases h1 : existing.contains t
    · rw [if_pos h1, ih links hex]
      have ht : (tgt, t) ∈ links := hex t (contains_mem h1)
      constructor
      · rintro (h | ⟨u, hu, rfl⟩)
        · exact Or.inl h
        · exact Or.inr ⟨u, List.mem_cons_of_mem _ hu, rfl⟩
      · rintro (h | ⟨u, hu, rfl⟩)
        · exact Or.inl h
        · rcases List.mem_cons.mp hu with rfl | hu'
          · exact Or.inl ht
          · exact Or.inr ⟨u, hu', rfl⟩
    · rw [if_neg h1]
      by_cases h2 : links.contains (tgt, t)
      · rw [if_pos h2, ih links hex]
        have ht : (tgt, t) ∈ links := contains_mem h2
        constructor
        · rintro (h | ⟨u, hu, rfl⟩)
          · exact Or.inl h
          · exact Or.inr ⟨u, List.mem_cons_of_mem _ hu, rfl⟩
        · rintro (h | ⟨u, hu, rfl⟩)
          · exact Or.inl h
          · rcases List.mem_cons.mp hu with rfl | hu'
            · exact Or.inl ht
            · exact Or.inr ⟨u, hu', rfl⟩
      · rw [if_neg h2]
        rw [ih (links ++ [(tgt, t)])
          (fun u hu => List.mem_append_left _ (hex u hu))]
        simp only [List.mem_append, List.mem_singleton]
        constructor
        · rintro ((h | h) | ⟨u, hu, rfl⟩)
          · exact Or.inl h
          · exact Or.inr ⟨t, List.mem_cons_self _ _, h⟩
          · exact Or.inr ⟨u, List.mem_cons_of_mem _ hu, rfl⟩
        · rintro (h | ⟨u, hu, rfl⟩)
          · exact Or.inl (Or.inl h)
          · rcases List.mem_cons.mp hu with rfl | hu'
            · exact Or.inl (Or.inr rfl)
            · exact Or.inr ⟨u, hu', rfl⟩

theorem mem_mergeAllTypeLinks (links : List (Nat × Nat)) (dup tgt : Nat)
    (rt : Option Nat) (t : Nat) :
    (tgt, t) ∈ mergeAllTypeLinks links dup tgt rt
      ↔ ((tgt, t) ∈ links ∨ (dup, t) ∈ links ∨
          ∃ tv, rt = some tv ∧ tv ≠ 0 ∧ t = tv) := by
  have hex : ∀ u ∈ (links.filter (fun p => p.1 = tgt)).map (fun p => p.2),
      (tgt, u) ∈ links := by
    intro u hu
    obtain ⟨p, hp, rfl⟩ := List.mem_map.mp hu
    obtain ⟨hpl, hpt⟩ := List.mem_filter.mp hp
    rw [decide_eq_true_eq] at hpt
    have hpe : (tgt, p.2) = p := by
      rw [← hpt]
    rw [hpe]
    exact hpl
  have hdupiff : (∃ u ∈ (links.filter (fun p => p.1 = dup)).map (fun p => p.2),
      (tgt, t) = (tgt, u)) ↔ (dup, t) ∈ links := by
    constructor
    · rintro ⟨u, hu, he⟩
      have : t = u := by
        injection he with h1 h2
      subst this
      obtain ⟨p, hp, rfl⟩ := List.mem_map.mp hu
      obtain ⟨hpl, hpt⟩ := List.mem_filter.mp hp
      rw [decide_eq_true_eq] at hpt
      have hpe : (dup, p.2) = p := by rw [← hpt]
      rw [hpe]
      exact hpl
    · intro h
      refine ⟨t, ?_, rfl⟩
      exact List.mem_map.mpr ⟨(dup, t), List.mem_filter.mpr ⟨h, by simp⟩, rfl⟩
  have hbase := mem_mergeTypeLinks
    ((links.filter (fun p => p.1 = dup)).map (fun p => p.2)) links tgt
    ((links.filter (fun p => p.1 = tgt)).map (fun p => p.2)) hex (tgt, t)
  unfold mergeAllTypeLinks
  dsimp only
  set L := mergeTypeLinks links tgt
      ((links.filter (fun p => p.1 = dup)).map (fun p => p.2))
      ((links.filter (fun p => p.1 = tgt)).map (fun p => p.2)) with hL
  have hbase2 : (tgt, t) ∈ L ↔ ((tgt, t) ∈ links ∨ (dup, t) ∈ links) :=
    hbase.trans (or_congr Iff.rfl hdupiff)
  cases rt with
  | none =>
    simp only []
    rw [hbase2]
    simp
  | some tv =>
    simp only []
    rcases Bool.eq_false_or_eq_true (decide (tv ≠ 0)) with h1 | h1
    · have htv0 : tv ≠ 0 := of_decide_eq_true h1
      rw [h1, Bool.true_and]
      rcases Bool.eq_false_or_eq_true (L.contains (tgt, tv)) with h2 | h2
      · rw [h2, Bool.not_true, if_neg Bool.false_ne_true, hbase2]
        have hcmem : (tgt, tv) ∈ L := contains_mem h2
        constructor
        · rintro (h | h)
          · exact Or.inl h
          · exact Or.inr (Or.inl h)
        · rintro (h | h | ⟨tv2, htv2, h0, rfl⟩)
          · exact Or.inl h
          · exact Or.inr h
          · cases htv2
            exact hbase2.mp hcmem
      · rw [h2, Bool.not_false, if_pos rfl]
        rw [List.mem_append, List.mem_singleton, hbase2]
        constructor
        · rintro ((h | h) | h)
          · exact Or.inl h
          · exact Or.inr (Or.inl h)
          · have ht : t = tv := by injection h
            exact Or.inr (Or.inr ⟨tv, rfl, htv0, ht⟩)
        · rintro (h | h | ⟨tv2, htv2, h0, rfl⟩)
          · exact Or.inl (Or.inl h)
          · exact Or.inl (Or.inr h)
          · cases htv2
            exact Or.inr rfl
    · have htv0 : tv = 0 := not_not.mp (of_decide_eq_false h1)
      rw [h1, Bool.false_and, if_neg Bool.false_ne_true, hbase2]
      constructor
      · rintro (h | h)
        · exact Or.inl h
        · exact Or.inr (Or.inl h)
      · rintro (h | h | ⟨tv2, htv2, h0, rfl⟩)
        · exact Or.inl h
        · exact Or.inr h
        · cases htv2
          exact absurd htv0 h0

/-- C7: a successful post-hoc merge leaves the target carrying exactly the
union of the two reforms' type tags plus the (truthy) triggering type, and
deletes the loser: no surviving row bears the duplicate's id, while a row
with the target's id survives. -/
theorem C7_posthoc_merge (db : DBState) (dup tgt : Nat) (ed : Option AIBlob)
    (rt : Option Nat) (v now : Nat) (dupRow tgtRow : ReformRow)
    (hdup : findRow db dup = some dupRow) (htgt : findRow db tgt = some tgtRow)
    (hne : tgt ≠ dup) :
    (merge_duplicate_reforms db dup tgt ed rt v now).1 = true ∧
    (∀ t, (tgt, t) ∈ (merge_duplicate_reforms db dup tgt ed rt v now).2.reform_reform_types
        ↔ ((tgt, t) ∈ db.reform_reform_types ∨ (dup, t) ∈ db.reform_reform_types ∨
            ∃ tv, rt = some tv ∧ tv ≠ 0 ∧ t = tv)) ∧
    (∀ row ∈ (merge_duplicate_reforms db dup tgt ed rt v now).2.reforms, row.id ≠ dup) ∧
    (∃ row ∈ (merge_duplicate_reforms db dup tgt ed rt v now).2.reforms, row.id = tgt) := by
  simp only [merge_duplicate_reforms, hdup, htgt]
  refine ⟨trivial, ?_, ?_, ?_⟩
  · intro t
    rw [List.mem_filter]
    rw [mem_mergeAllTypeLinks db.reform_reform_types dup tgt rt t]
    constructor
    · rintro ⟨h, -⟩
      exact h
    · intro h
      exact ⟨h, by simpa using hne⟩
  · intro row hrow
    have := (List.mem_filter.mp hrow).2
    simpa using this
  · have hmem : tgtRow ∈ db.reforms := List.mem_of_find?_eq_some htgt
    have hid : tgtRow.id = tgt := by
      have := List.find?_some htgt
      simpa using this
    refine ⟨postHocRowUpdate dupRow tgtRow ed v now tgtRow, ?_, hid⟩
    rw [List.mem_filter]
    constructor
    · exact List.mem_map.mpr ⟨tgtRow, hmem, by rw [if_pos hid]⟩
    · show decide ((postHocRowUpdate dupRow tgtRow ed v now tgtRow).id ≠ dup) = true
      rw [decide_eq_true_eq]
      show tgtRow.id ≠ dup
      rw [hid]
      exact hne

/-- Witness for C7: loser with types set 1 merged into target with type 2
leaves the target with both tags and removes reform 1. -/
theorem C7_posthoc_merge_witness :
    findRow db3 1 = some dupRow3 ∧ findRow db3 2 = some tgtRow3 ∧ (2 : Nat) ≠ 1 ∧
    (merge_duplicate_reforms db3 1 2 none none 1 0).1 = true ∧
    (2, 1) ∈ (merge_duplicate_reforms db3 1 2 none none 1 0).2.reform_reform_types ∧
    (2, 2) ∈ (merge_duplicate_reforms db3 1 2 none none 1 0).2.reform_reform_types ∧
    ∀ row ∈ (merge_duplicate_reforms db3 1 2 none none 1 0).2.reforms, row.id ≠ 1 := by
  have h := C7_posthoc_merge db3 1 2 none none 1 0 dupRow3 tgtRow3
    (by decide) (by decide) (by decide)
  refine ⟨by decide, by decide, by decide, h.1, ?_, ?_, h.2.2.1⟩
  · exact (h.2.1 1).mpr (Or.inr (Or.inl (by decide)))
  · exact (h.2.1 2).mpr (Or.inl (by decide))

/-! ## C8 — source re-linking: COALESCE except `is_primary` -/

theorem filter_map_comm {α : Type} (f : α → α) (p : α → Bool) (l : List α)
    (h : ∀ x, p (f x) = p x) : (l.map f).filter p = (l.filter p).map f := by
  induction l with
  | nil => rfl
  | cons x xs ih =>
    simp only [List.map_cons, List.filter_cons, h x]
    cases hp : p x <;> simp [hp, ih]

/-- C8 counterexample: a stored link with `is_primary = false`, re-linked
with a payload that supplies no source-metadata fields at all, keeps its
reporter (COALESCE) but has its `is_primary` overwritten to `true` — the
absent field erased the stored value. -/
theorem C8_counterexample :
    srcRow8.is_primary = false ∧ recBare.is_primary = none ∧
    (bulk_link_reform_sources db8 [1] [recBare] "src").map
        (fun p => p.2.reform_sources.map (fun s => (s.reporter, s.is_primary)))
      = .ok [(some "x", true)] := by
  refine ⟨rfl, rfl, by decide⟩

/-- C8 amended: re-linking an existing `(reform_id, source_id)` pair updates
the row with COALESCE semantics on `reporter`, `source_url` and `notes`, but
sets `is_primary` unconditionally to the incoming value, which defaults to
`true` when the payload does not supply the field. -/
theorem C8_amended_source_link (db : DBState) (rid sid : Nat) (r : ReformRecord)
    (sname : String) (old : SourceRow)
    (hsrc : db.sources.find? (fun s => s.2 = sname) = some (sid, sname))
    (hfilter : db.reform_sources.filter
        (fun w => w.reform_id = rid && w.source_id = sid) = [old]) :
    ∃ db', bulk_link_reform_sources db [rid] [r] sname = .ok (1, db') ∧
      db'.reform_sources.filter (fun w => w.reform_id = rid && w.source_id = sid)
        = [{ old with
              reporter := coalesce r.reporter old.reporter,
              source_url := coalesce r.source_url old.source_url,
              notes := coalesce r.source_notes old.notes,
              is_primary := r.is_primary.getD true }] := by
  have holdf : old ∈ db.reform_sources.filter
      (fun w => w.reform_id = rid && w.source_id = sid) := by
    rw [hfilter]
    exact List.mem_singleton.mpr rfl
  have hold_mem : old ∈ db.reform_sources := (List.mem_filter.mp holdf).1
  have hold_pred : (decide (old.reform_id = rid) && decide (old.source_id = sid)) = true :=
    (List.mem_filter.mp holdf).2
  have hany : db.reform_sources.any
      (fun ex => ex.reform_id = rid && ex.source_id = sid) = true :=
    List.any_eq_true.mpr ⟨old, hold_mem, hold_pred⟩
  refine ⟨{ db with reform_sources := db.reform_sources.map (fun ex =>
      if ex.reform_id = rid && ex.source_id = sid
      then applySourceUpdate ex
        { reform_id := rid, source_id := sid, reporter := r.reporter,
          source_url := r.source_url, notes := r.source_notes,
          is_primary := r.is_primary.getD true }
      else ex) }, ?_, ?_⟩
  · simp only [bulk_link_reform_sources, hsrc, pure_bind, List.zip_cons_cons,
      List.zip_nil_right, List.foldl_cons, List.foldl_nil, List.any_nil,
      Bool.false_eq_true, if_false, List.nil_append, List.isEmpty_cons,
      Bool.or_self, List.isEmpty_nil]
    rw [hany]
    rfl
  · show (db.reform_sources.map _).filter _ = _
    rw [filter_map_comm _ _ db.reform_sources ?_, hfilter]
    · show [if old.reform_id = rid && old.source_id = sid then _ else _] = _
      rw [if_pos hold_pred]
      rfl
    · intro x
      by_cases hx : (decide (x.reform_id = rid) && decide (x.source_id = sid)) = true
      · rw [if_pos hx]
        exact hx.trans hx.symm
      · rw [if_neg hx]

/-- Witness for the amended C8 at the concrete store `db8`. -/
theorem C8_amended_source_link_witness :
    db8.sources.find? (fun s => s.2 = "src") = some (7, "src") ∧
    db8.reform_sources.filter (fun w => w.reform_id = 1 && w.source_id = 7) = [srcRow8] ∧
    ∃ db', bulk_link_reform_sources db8 [1] [recBare] "src" = .ok (1, db') ∧
      db'.reform_sources.filter (fun w => w.reform_id = 1 && w.source_id = 7)
        = [{ srcRow8 with
              reporter := coalesce recBare.reporter srcRow8.reporter,
              source_url := coalesce recBare.source_url srcRow8.source_url,
              notes := coalesce recBare.source_notes srcRow8.notes,
              is_primary := recBare.is_primary.getD true }] := by
  refine ⟨by decide, by decide, ?_⟩
  exact C8_amended_source_link db8 1 7 recBare "src" srcRow8 (by decide) (by decide)

/-! ## C1 — write-time identity violations are not recovered -/

/-- C1 counterexample: the in-memory check classifies the time-suffixed
record as a fresh insert, the store's sentinel-based unique index rejects it,
and `bulk_upsert_reforms` propagates the failure — the record is not moved to
the update path and the batch fails. -/
theorem C1_counterexample :
    dedupe_reforms [exRec1] = .ok [exRec1] ∧
    partitionReforms (existingMap exDB1 [exRec1]) [exRec1] = ([exRec1], []) ∧
    bulk_upsert_reforms exDB1 [exRec1] = .error .uniqueViolation := by
  refine ⟨by decide, by decide, by decide⟩

/-- C1 amended: when the store rejects a bulk-insert row, the handler logs
and re-raises, so the whole batch fails with that error (no re-query, no
update path); in the enrichment update path a unique violation is caught and
returned as a `MERGE_NEEDED` error with the store untouched, and the driver
answers it by rolling back and skipping the record — no merge is invoked. -/
theorem C1_amended_violation_handling :
    (∀ (db : DBState) (reforms deduped : List ReformRecord) (e : PyErr),
        dedupe_reforms reforms = .ok deduped → deduped.isEmpty = false →
        insertReforms db (partitionReforms (existingMap db deduped) deduped).1
          = .error e →
        bulk_upsert_reforms db reforms = .error e) ∧
    (∀ (db : DBState) (rid : Nat) (blob : AIBlob) (v now : Nat) (rt : Option Nat),
        (update_reform_enrichment db rid blob v now rt true).2 = db ∧
        (update_reform_enrichment db rid blob v now rt true).1.success = false ∧
        ∃ msg, (update_reform_enrichment db rid blob v now rt true).1.error_msg
            = some msg ∧
          (∃ rest, msg = "MERGE_NEEDED:" ++ rest) ∧
          enrichment_failure_action (some msg) = .rollbackSkip) := by
  constructor
  · intro db reforms deduped e hd hne hins
    unfold bulk_upsert_reforms
    rw [hd, bindOk, hne, if_neg Bool.false_ne_true]
    dsimp only
    rw [hins]
    rfl
  · intro db rid blob v now rt
    refine ⟨rfl, rfl, "MERGE_NEEDED: duplicate key value violates unique constraint",
      rfl, ⟨" duplicate key value violates unique constraint", by decide⟩,
      by simp [enrichment_failure_action]⟩

/-- Witness for the amended C1 at the concrete rejected insert. -/
theorem C1_amended_violation_handling_witness :
    dedupe_reforms [exRec1] = .ok [exRec1] ∧
    ([exRec1] : List ReformRecord).isEmpty = false ∧
    insertReforms exDB1 (partitionReforms (existingMap exDB1 [exRec1]) [exRec1]).1
      = .error .uniqueViolation ∧
    bulk_upsert_reforms exDB1 [exRec1] = .error .uniqueViolation ∧
    (update_reform_enrichment exDB1 1 { fields := none } 1 0 none true).2 = exDB1 := by
  obtain ⟨c1, c2⟩ := C1_amended_violation_handling
  refine ⟨by decide, by decide, by decide, ?_, ?_⟩
  · exact c1 exDB1 [exRec1] [exRec1] .uniqueViolation (by decide) (by decide) (by decide)
  · exact (c2 exDB1 1 { fields := none } 1 0 none).1

/-! ## C6 — idempotence: list and dictionary infrastructure -/

theorem map_id_of_mem {α : Type} (l : List α) (f : α → α) (h : ∀ x ∈ l, f x = x) :
    l.map f = l := by
  induction l with
  | nil => rfl
  | cons x xs ih =>
    rw [List.map_cons, h x (List.mem_cons_self _ _),
      ih (fun y hy => h y (List.mem_cons_of_mem _ hy))]

theorem dictFind_foldl_none {α κ : Type} [DecidableEq κ] (key : α → κ) (val : α → Nat)
    (rows : List α) (m : List (κ × Nat)) (k : κ) (h : ∀ x ∈ rows, key x ≠ k) :
    dictFind k (rows.foldl (fun m x => dictSet (key x) (val x) m) m) = dictFind k m := by
  induction rows generalizing m with
  | nil => rfl
  | cons x rest ih =>
    simp only [List.foldl_cons]
    rw [ih _ (fun y hy => h y (List.mem_cons_of_mem _ hy)),
      dictFind_dictSet_ne _ _ _ _ (h x (List.mem_cons_self _ _)).symm]

theorem dictFind_foldl_mem {α κ : Type} [DecidableEq κ] (key : α → κ) (val : α → Nat)
    (rows : List α) (m : List (κ × Nat)) (x : α) (hx : x ∈ rows)
    (huniq : rows.Pairwise (fun a b => key a ≠ key b)) :
    dictFind (key x) (rows.foldl (fun m y => dictSet (key y) (val y) m) m)
      = some (val x) := by
  induction rows generalizing m with
  | nil => exact absurd hx (List.not_mem_nil x)
  | cons y rest ih =>
    simp only [List.foldl_cons]
    rcases List.mem_cons.mp hx with rfl | hx'
    · rw [dictFind_foldl_none key val rest _ (key x)
        (fun z hz he => ((List.pairwise_cons.mp huniq).1 z hz) he.symm)]
      exact dictFind_dictSet_eq _ _ _
    · exact ih _ hx' (List.pairwise_cons.mp huniq).2

theorem find?_of_distinct_fst (ups : List (Nat × ReformRecord)) (eid : Nat)
    (r : ReformRecord) (hmem : (eid, r) ∈ ups)
    (hd : ups.Pairwise (fun a b => a.1 ≠ b.1)) :
    ups.find? (fun er => er.1 = eid) = some (eid, r) := by
  induction ups with
  | nil => exact absurd hmem (List.not_mem_nil _)
  | cons e rest ih =>
    rcases List.mem_cons.mp hmem with rfl | hmem'
    · exact List.find?_cons_of_pos _ (by simp)
    · have hne : e.1 ≠ eid := by
        have := (List.pairwise_cons.mp hd).1 (eid, r) hmem'
        simpa using this
      rw [List.find?_cons_of_neg _ (by simpa using hne)]
      exact ih hmem' (List.pairwise_cons.mp hd).2

theorem zip_left_length {α β : Type} (l1 : List α) (l2 l3 : List β)
    (h : l1.length = l2.length) : l1.zip (l2 ++ l3) = l1.zip l2 := by
  induction l1 generalizing l2 with
  | nil => rfl
  | cons x xs ih =>
    cases l2 with
    | nil => simp at h
    | cons y ys =>
      simp only [List.cons_append, List.zip_cons_cons]
      rw [ih ys (by simpa using h)]

theorem mem_insertTypeLinks (links pairs : List (Nat × Nat)) (p : Nat × Nat) :
    p ∈ insertTypeLinks links pairs ↔ (p ∈ links ∨ p ∈ pairs) := by
  induction pairs generalizing links with
  | nil => simp [insertTypeLinks]
  | cons q rest ih =>
    show p ∈ insertTypeLinks (linkStep links q) rest ↔ _
    rw [ih]
    unfold linkStep
    by_cases hc : links.contains q
    · rw [if_pos hc]
      have hq : q ∈ links := contains_mem hc
      constructor
      · rintro (h | h)
        · exact Or.inl h
        · exact Or.inr (List.mem_cons_of_mem _ h)
      · rintro (h | h)
        · exact Or.inl h
        · rcases List.mem_cons.mp h with rfl | h'
          · exact Or.inl hq
          · exact Or.inr h'
    · rw [if_neg hc]
      simp only [List.mem_append, List.mem_singleton]
      constructor
      · rintro ((h | h) | h)
        · exact Or.inl h
        · rw [h]
          exact Or.inr (List.mem_cons_self _ _)
        · exact Or.inr (List.mem_cons_of_mem _ h)
      · rintro (h | h)
        · exact Or.inl (Or.inl h)
        · rcases List.mem_cons.mp h with rfl | h'
          · exact Or.inl (Or.inr rfl)
          · exact Or.inr h'

theorem insertTypeLinks_noop (links pairs : List (Nat × Nat))
    (h : ∀ p ∈ pairs, p ∈ links) : insertTypeLinks links pairs = links := by
  induction pairs with
  | nil => rfl
  | cons q rest ih =>
    have hq : linkStep links q = links := by
      unfold linkStep
      rw [if_pos (mem_contains (h q (List.mem_cons_self _ _)))]
    show insertTypeLinks (linkStep links q) rest = links
    rw [hq]
    exact ih (fun p hp => h p (List.mem_cons_of_mem _ hp))

theorem filterMap_eq_map_of_all {α β : Type} (f : α → Option β) (g : α → β)
    (l : List α) (h : ∀ a ∈ l, f a = some (g a)) : l.filterMap f = l.map g := by
  induction l with
  | nil => rfl
  | cons x xs ih =>
    rw [List.filterMap_cons, h x (List.mem_cons_self _ _), List.map_cons,
      ih (fun a ha => h a (List.mem_cons_of_mem _ ha))]

theorem filter_map_comm_mem {α : Type} (f : α → α) (p : α → Bool) (l : List α)
    (h : ∀ x ∈ l, p (f x) = p x) : (l.map f).filter p = (l.filter p).map f := by
  induction l with
  | nil => rfl
  | cons x xs ih =>
    simp only [List.map_cons, List.filter_cons, h x (List.mem_cons_self _ _)]
    cases hp : p x <;>
      simp [hp, ih (fun y hy => h y (List.mem_cons_of_mem _ hy))]

theorem foldl_emapStep_map (l : List ReformRow) (f : ReformRow → ReformRow)
    (m : List (IdKey × Nat))
    (h : ∀ x ∈ l, rowKey (f x) = rowKey x ∧ (f x).id = x.id) :
    (l.map f).foldl emapStep m = l.foldl emapStep m := by
  induction l generalizing m with
  | nil => rfl
  | cons x xs ih =>
    simp only [List.map_cons, List.foldl_cons]
    have hx := h x (List.mem_cons_self _ _)
    rw [show emapStep m (f x) = emapStep m x from by unfold emapStep; rw [hx.1, hx.2]]
    exact ih _ (fun y hy => h y (List.mem_cons_of_mem _ hy))

/-! ## C6 — specs of the three passes -/

theorem partition_foldl_spec (emap : List (IdKey × Nat)) (dd : List ReformRecord) :
    ∀ acc, dd.foldl (partitionStep emap) acc
      = (acc.1 ++ dd.filter (fun r => (dictFind (recKey r) emap).isNone),
         acc.2 ++ dd.filterMap
           (fun r => (dictFind (recKey r) emap).map (fun eid => (eid, r)))) := by
  induction dd with
  | nil =>
    intro acc
    simp
  | cons r rest ih =>
    intro acc
    simp only [List.foldl_cons]
    rw [ih (partitionStep emap acc r)]
    unfold partitionStep
    cases hfind : dictFind (recKey r) emap with
    | none => simp [List.filter_cons, List.filterMap_cons, hfind]
    | some eid => simp [List.filter_cons, List.filterMap_cons, hfind]

theorem partition_spec (emap : List (IdKey × Nat)) (dd : List ReformRecord) :
    partitionReforms emap dd
      = (dd.filter (fun r => (dictFind (recKey r) emap).isNone),
         dd.filterMap
           (fun r => (dictFind (recKey r) emap).map (fun eid => (eid, r)))) := by
  have := partition_foldl_spec emap dd ([], [])
  simpa [partitionReforms] using this

theorem insertReforms_foldl_spec (l : List ReformRecord) :
    ∀ (ids0 : List Nat) (db0 : DBState) (out : List Nat × DBState),
      List.foldlM insertStep (ids0, db0) l = .ok out →
      out.1 = ids0 ++ List.range' db0.nextId l.length ∧
      out.2.reforms = db0.reforms ++ insertedRows db0.nextId l ∧
      out.2.nextId = db0.nextId + l.length ∧
      out.2.reform_reform_types = db0.reform_reform_types ∧
      out.2.reform_sources = db0.reform_sources ∧
      out.2.reform_citations = db0.reform_citations ∧
      out.2.sources = db0.sources ∧
      out.2.uniqueConstraint = db0.uniqueConstraint := by
  induction l with
  | nil =>
    intro ids0 db0 out h
    simp only [List.foldlM_nil] at h
    cases h
    simp [insertedRows]
  | cons r rest ih =>
    intro ids0 db0 out h
    simp only [List.foldlM_cons] at h
    rcases Bool.eq_false_or_eq_true (db0.uniqueConstraint &&
        db0.reforms.any (fun ex => decide (rowKey ex = rowKey (rowOfRecord db0.nextId r))))
      with hc | hc
    · rw [show insertStep (ids0, db0) r = .error .uniqueViolation from by
        unfold insertStep
        rw [if_pos hc]
        rfl] at h
      exact absurd h (by simp [Bind.bind, Except.bind])
    · rw [show insertStep (ids0, db0) r = .ok (ids0 ++ [db0.nextId],
          { db0 with reforms := db0.reforms ++ [rowOfRecord db0.nextId r],
                     nextId := db0.nextId + 1 }) from by
        unfold insertStep
        rw [if_neg (by rw [hc]; exact Bool.false_ne_true)]
        rfl] at h
      rw [bindOk] at h
      obtain ⟨h1, h2, h3, h4, h5, h6, h7, h8⟩ := ih _ _ _ h
      refine ⟨?_, ?_, ?_, h4, h5, h6, h7, h8⟩
      · rw [h1, List.length_cons, List.range'_succ]
        simp [List.append_assoc]
      · rw [h2]
        show db0.reforms ++ [rowOfRecord db0.nextId r] ++ insertedRows (db0.nextId + 1) rest
          = db0.reforms ++ insertedRows db0.nextId (r :: rest)
        rw [List.append_assoc]
        rfl
      · rw [h3, List.length_cons]
        show db0.nextId + 1 + rest.length = _
        omega

theorem insertReforms_spec (db : DBState) (l : List ReformRecord)
    (ids : List Nat) (db' : DBState) (h : insertReforms db l = .ok (ids, db')) :
    ids = List.range' db.nextId l.length ∧
    db'.reforms = db.reforms ++ insertedRows db.nextId l ∧
    db'.nextId = db.nextId + l.length ∧
    db'.reform_reform_types = db.reform_reform_types ∧
    db'.reform_sources = db.reform_sources ∧
    db'.reform_citations = db.reform_citations ∧
    db'.sources = db.sources ∧
    db'.uniqueConstraint = db.uniqueConstraint := by
  obtain ⟨h1, hrest⟩ := insertReforms_foldl_spec l [] db (ids, db') h
  exact ⟨by simpa using h1, hrest⟩

theorem updateFold_db (ups : List (Nat × ReformRecord))
    (hd : ups.Pairwise (fun a b => a.1 ≠ b.1)) :
    ∀ acc : List Nat × Nat × DBState,
      (ups.foldl updateStep acc).2.2
        = { acc.2.2 with reforms := acc.2.2.reforms.map (updFun ups) } := by
  induction ups with
  | nil =>
    intro acc
    rw [map_id_of_mem acc.2.2.reforms (updFun []) (fun x _ => rfl)]
    rfl
  | cons e rest ih =>
    intro acc
    simp only [List.foldl_cons]
    rw [ih (List.pairwise_cons.mp hd).2 (updateStep acc e)]
    have hstep : (updateStep acc e).2.2
        = { acc.2.2 with reforms := acc.2.2.reforms.map (fun row => if row.id = e.1 then applyUpdate row e.2 else row) } := by
      unfold updateStep
      rcases Bool.eq_false_or_eq_true
          (acc.2.2.reforms.any (fun row => decide (row.id = e.1))) with hany | hany
      · rw [if_pos hany]
      · rw [if_neg (by rw [hany]; exact Bool.false_ne_true)]
        have hall := List.any_eq_false.mp hany
        rw [map_id_of_mem _ _ (fun row hrow => by
          rw [if_neg (by simpa using hall row hrow)])]
    have hcompose : ∀ row : ReformRow, updFun rest
        (if row.id = e.1 then applyUpdate row e.2 else row) = updFun (e :: rest) row := by
      intro row
      by_cases hid : row.id = e.1
      · rw [if_pos hid]
        unfold updFun
        have hnone : rest.find? (fun er => er.1 = (applyUpdate row e.2).id) = none := by
          rw [List.find?_eq_none]
          intro x hx
          have hx1 : e.1 ≠ x.1 := (List.pairwise_cons.mp hd).1 x hx
          simp only [decide_eq_true_eq]
          show ¬x.1 = row.id
          rw [hid]
          exact fun hh => hx1 hh.symm
        rw [hnone, List.find?_cons_of_pos _ (by simpa using hid.symm)]
      · rw [if_neg hid]
        unfold updFun
        rw [List.find?_cons_of_neg _ (by simpa using fun hh : e.1 = row.id => hid hh.symm)]
    rw [hstep]
    have hmaps : (acc.2.2.reforms.map
          (fun row => if row.id = e.1 then applyUpdate row e.2 else row)).map (updFun rest)
        = acc.2.2.reforms.map (updFun (e :: rest)) := by
      rw [List.map_map]
      exact List.map_congr_left (fun row _ => hcompose row)
    rw [hmaps]

theorem updateReforms_db (db : DBState) (ups : List (Nat × ReformRecord))
    (hd : ups.Pairwise (fun a b => a.1 ≠ b.1)) :
    (updateReforms db ups).2.2 = { db with reforms := db.reforms.map (updFun ups) } :=
  updateFold_db ups hd ([], 0, db)

/-! ## C6 — more dictionary lemmas -/

theorem dictFind_eq_none_iff {κ β : Type} [DecidableEq κ] (k : κ) (m : List (κ × β)) :
    dictFind k m = none ↔ ∀ kv ∈ m, kv.1 ≠ k := by
  induction m with
  | nil => simp [dictFind]
  | cons kv rest ih =>
    by_cases hk : kv.1 = k
    · simp [dictFind, hk]
    · simp only [dictFind, if_neg hk, ih]
      constructor
      · intro h x hx
        rcases List.mem_cons.mp hx with rfl | hx'
        · exact hk
        · exact h x hx'
      · intro h x hx
        exact h x (List.mem_cons_of_mem _ hx)

theorem mem_dictSet {κ β : Type} [DecidableEq κ] (k : κ) (v : β) (m : List (κ × β))
    (kv : κ × β) (h : kv ∈ dictSet k v m) : kv = (k, v) ∨ kv ∈ m := by
  induction m with
  | nil =>
    rcases List.mem_singleton.mp h with rfl
    exact Or.inl rfl
  | cons x rest ih =>
    by_cases hk : x.1 = k
    · simp only [dictSet, if_pos hk] at h
      rcases List.mem_cons.mp h with rfl | h'
      · exact Or.inl (by rw [hk])
      · exact Or.inr (List.mem_cons_of_mem _ h')
    · simp only [dictSet, if_neg hk] at h
      rcases List.mem_cons.mp h with rfl | h'
      · exact Or.inr (List.mem_cons_self _ _)
      · rcases ih h' with h'' | h''
        · exact Or.inl h''
        · exact Or.inr (List.mem_cons_of_mem _ h'')

theorem pairwise_dictSet {κ β : Type} [DecidableEq κ] (k : κ) (v : β) (m : List (κ × β))
    (h : m.Pairwise (fun a b => a.1 ≠ b.1)) :
    (dictSet k v m).Pairwise (fun a b => a.1 ≠ b.1) := by
  induction m with
  | nil => simp [dictSet]
  | cons x rest ih =>
    obtain ⟨hx, hrest⟩ := List.pairwise_cons.mp h
    by_cases hk : x.1 = k
    · simp only [dictSet, if_pos hk]
      exact List.pairwise_cons.mpr ⟨fun y hy => hk ▸ hx y hy, hrest⟩
    · simp only [dictSet, if_neg hk]
      refine List.pairwise_cons.mpr ⟨?_, ih hrest⟩
      intro y hy
      rcases mem_dictSet k v rest y hy with rfl | hy'
      · exact hk
      · exact hx y hy'

theorem dictFind_foldl_source {α κ : Type} [DecidableEq κ] (key : α → κ) (val : α → Nat)
    (rows : List α) (m : List (κ × Nat)) (k : κ) (v : Nat)
    (h : dictFind k (rows.foldl (fun m x => dictSet (key x) (val x) m) m) = some v) :
    (∃ x ∈ rows, key x = k ∧ val x = v) ∨ dictFind k m = some v := by
  induction rows generalizing m with
  | nil => exact Or.inr h
  | cons x rest ih =>
    simp only [List.foldl_cons] at h
    rcases ih _ h with ⟨y, hy, hk, hv⟩ | h'
    · exact Or.inl ⟨y, List.mem_cons_of_mem _ hy, hk, hv⟩
    · by_cases hk : key x = k
      · rw [← hk, dictFind_dictSet_eq] at h'
        cases h'
        exact Or.inl ⟨x, List.mem_cons_self _ _, hk, rfl⟩
      · rw [dictFind_dictSet_ne _ _ _ _ (fun he => hk he.symm)] at h'
        exact Or.inr h'

theorem dictFind_dictSet_congr {κ β : Type} [DecidableEq κ] (k a : κ) (v : β)
    (m1 m2 : List (κ × β)) (h : dictFind k m1 = dictFind k m2) :
    dictFind k (dictSet a v m1) = dictFind k (dictSet a v m2) := by
  by_cases hk : k = a
  · rw [hk, dictFind_dictSet_eq, dictFind_dictSet_eq]
  · rw [dictFind_dictSet_ne _ _ _ _ hk, dictFind_dictSet_ne _ _ _ _ hk]
    exact h

theorem dictFind_foldl_indep {α κ : Type} [DecidableEq κ] (key : α → κ) (val : α → Nat)
    (rows : List α) (k : κ) (hex : ∃ x ∈ rows, key x = k) :
    ∀ m1 m2, dictFind k (rows.foldl (fun m x => dictSet (key x) (val x) m) m1)
      = dictFind k (rows.foldl (fun m x => dictSet (key x) (val x) m) m2) := by
  induction rows with
  | nil =>
    obtain ⟨x, hx, -⟩ := hex
    exact absurd hx (List.not_mem_nil x)
  | cons y rest ih =>
    intro m1 m2
    simp only [List.foldl_cons]
    by_cases hrest : ∃ x ∈ rest, key x = k
    · exact ih hrest _ _
    · obtain ⟨x, hx, hk⟩ := hex
      have hxy : x = y := by
        rcases List.mem_cons.mp hx with rfl | hx'
        · rfl
        · exact absurd ⟨x, hx', hk⟩ hrest
      subst hxy
      have hnone : ∀ z ∈ rest, key z ≠ k := fun z hz he => hrest ⟨z, hz, he⟩
      rw [dictFind_foldl_none key val rest _ k hnone,
        dictFind_foldl_none key val rest _ k hnone, ← hk,
        dictFind_dictSet_eq, dictFind_dictSet_eq]

theorem dictFind_foldl_isSome {α κ : Type} [DecidableEq κ] (key : α → κ) (val : α → Nat)
    (rows : List α) (m : List (κ × Nat)) (k : κ) (hex : ∃ x ∈ rows, key x = k) :
    ∃ v, dictFind k (rows.foldl (fun m x => dictSet (key x) (val x) m) m) = some v := by
  induction rows generalizing m with
  | nil =>
    obtain ⟨x, hx, -⟩ := hex
    exact absurd hx (List.not_mem_nil x)
  | cons y rest ih =>
    simp only [List.foldl_cons]
    by_cases hrest : ∃ x ∈ rest, key x = k
    · exact ih _ hrest
    · obtain ⟨x, hx, hk⟩ := hex
      have hxy : x = y := by
        rcases List.mem_cons.mp hx with rfl | hx'
        · rfl
        · exact absurd ⟨x, hx', hk⟩ hrest
      subst hxy
      rw [dictFind_foldl_none key val rest _ k (fun z hz he => hrest ⟨z, hz, he⟩), ← hk,
        dictFind_dictSet_eq]
      exact ⟨val x, rfl⟩

/-! ## C6 — record and row lemmas -/

theorem recordKey_eq_dedupeKey (p : Nat) (r : ReformRecord) :
    recordKey p r = dedupeKey p r := rfl

theorem merge_arrays_ne_some_empty (a b : Option (Finset String)) :
    merge_arrays a b ≠ some ∅ := by
  unfold merge_arrays arrFalsy
  cases a with
  | none =>
    cases b with
    | none => simp
    | some t =>
      by_cases ht : t = ∅ <;> simp [ht]
  | some s =>
    by_cases hs : s = ∅
    · cases b with
      | none => simp [hs]
      | some t => by_cases ht : t = ∅ <;> simp [hs, ht]
    · cases b with
      | none => simp [hs]
      | some t =>
        by_cases ht : t = ∅
        · simp [hs, ht]
        · by_cases hu : arrMembers (some s) ∪ arrMembers (some t) = ∅ <;>
            simp [hs, ht, hu]

theorem mergeScalar_getD {α : Type} (a b : Option α) (d : α)
    (h : a.getD d = b.getD d) : (mergeScalar a b).getD d = a.getD d := by
  cases a <;> cases b <;> simp_all [mergeScalar]

theorem mergeScalar_canon (a b : Option String)
    (ha : ∀ x ∈ a, storeCanonDate x = x) (hb : ∀ x ∈ b, storeCanonDate x = x) :
    ∀ x ∈ mergeScalar a b, storeCanonDate x = x := by
  cases a <;> cases b <;> simp_all [mergeScalar]

theorem keyPlace_dedupeKey (p : Nat) (r : ReformRecord) :
    keyPlace (dedupeKey p r) = p := by
  unfold dedupeKey keyPlace
  cases r.policy_document_id <;> rfl

theorem dedupeKey_mergeRecords (p : Nat) (ex r : ReformRecord) (k : IdKey)
    (hex : dedupeKey p ex = k) (hr : dedupeKey p r = k) :
    dedupeKey p (mergeRecords ex r) = k := by
  unfold dedupeKey at hex hr ⊢
  cases hdex : ex.policy_document_id with
  | some d1 =>
    rw [hdex] at hex
    cases hdr : r.policy_document_id with
    | some d2 =>
      rw [hdr] at hr
      show (match mergeScalar ex.policy_document_id r.policy_document_id with
        | some docId => IdKey.doc p docId
        | none => IdKey.dateStatus p ((mergeScalar ex.adoption_date r.adoption_date).getD sentinelDate) ((mergeScalar ex.status r.status).getD "")) = k
      rw [hdex, hdr]
      rw [← hr]
      rfl
    | none =>
      rw [hdr] at hr
      rw [← hex] at hr
      exact absurd hr (by simp)
  | none =>
    rw [hdex] at hex
    cases hdr : r.policy_document_id with
    | some d2 =>
      rw [hdr] at hr
      rw [← hex] at hr
      exact absurd hr (by simp)
    | none =>
      rw [hdr] at hr
      show (match mergeScalar ex.policy_document_id r.policy_document_id with
        | some docId => IdKey.doc p docId
        | none => IdKey.dateStatus p ((mergeScalar ex.adoption_date r.adoption_date).getD sentinelDate) ((mergeScalar ex.status r.status).getD "")) = k
      rw [hdex, hdr]
      show IdKey.dateStatus p ((mergeScalar ex.adoption_date r.adoption_date).getD sentinelDate) ((mergeScalar ex.status r.status).getD "") = k
      rw [← hex] at hr ⊢
      have h1 : ex.adoption_date.getD sentinelDate = r.adoption_date.getD sentinelDate := by
        injection hr with h1 h2 h3
        exact h2.symm
      have h2 : ex.status.getD "" = r.status.getD "" := by
        injection hr with hh1 hh2 hh3
        exact hh3.symm
      rw [mergeScalar_getD _ _ _ h1, mergeScalar_getD _ _ _ h2]

theorem WFRecord_mergeRecords (ex r : ReformRecord)
    (hex : WFRecord ex) (hr : WFRecord r) : WFRecord (mergeRecords ex r) := by
  refine ⟨?_, ?_, ?_, ?_⟩
  · exact mergeScalar_canon ex.adoption_date r.adoption_date hex.1 hr.1
  · exact merge_arrays_ne_some_empty ex.scope r.scope
  · exact merge_arrays_ne_some_empty ex.land_use r.land_use
  · exact merge_arrays_ne_some_empty ex.requirements r.requirements

/-! ## C6 — the deduplicated batch: keys are sound and pairwise distinct -/

theorem dedupe_foldl_inv (reforms : List ReformRecord)
    (hrec : ∀ r ∈ reforms, WFRecord r) :
    ∀ (acc out : List (IdKey × ReformRecord)),
      (∀ kv ∈ acc, kv.2.place_id = some (keyPlace kv.1) ∧
        dedupeKey (keyPlace kv.1) kv.2 = kv.1 ∧ WFRecord kv.2) →
      acc.Pairwise (fun a b => a.1 ≠ b.1) →
      List.foldlM dedupeStep acc reforms = .ok out →
      (∀ kv ∈ out, kv.2.place_id = some (keyPlace kv.1) ∧
        dedupeKey (keyPlace kv.1) kv.2 = kv.1 ∧ WFRecord kv.2) ∧
      out.Pairwise (fun a b => a.1 ≠ b.1) := by
  induction reforms with
  | nil =>
    intro acc out hinv hpw h
    simp only [List.foldlM_nil] at h
    cases h
    exact ⟨hinv, hpw⟩
  | cons r rest ih =>
    intro acc out hinv hpw h
    have hr : WFRecord r := hrec r (List.mem_cons_self _ _)
    have hrest : ∀ x ∈ rest, WFRecord x := fun x hx => hrec x (List.mem_cons_of_mem _ hx)
    simp only [List.foldlM_cons] at h
    by_cases htids : normalize_reform_type_ids r = []
    · rw [dedupeStep_skip acc r htids, bindOk] at h
      exact ih hrest acc out hinv hpw h
    · cases hplace : r.place_id with
      | none =>
        rw [show dedupeStep acc r = .error (.keyError "place_id") from by
          simp only [dedupeStep, htids, hplace, if_false]
          rfl] at h
        exact absurd h (by simp [Bind.bind, Except.bind])
      | some p =>
        cases hfind : dictFind (dedupeKey p r) acc with
        | some ex =>
          rw [dedupeStep_merge acc r ex p hplace htids hfind, bindOk] at h
          refine ih hrest _ out ?_ (pairwise_dictSet _ _ _ hpw) h
          intro kv hkv
          rcases mem_dictSet _ _ _ kv hkv with rfl | hkv'
          · have hexinv := hinv (dedupeKey p r, ex) (dictFind_mem _ _ _ hfind)
            have hkp : keyPlace (dedupeKey p r) = p := keyPlace_dedupeKey p r
            refine ⟨?_, ?_, ?_⟩
            · show (mergeRecords ex r).place_id = _
              show ex.place_id = _
              rw [hexinv.1]
            · show dedupeKey (keyPlace (dedupeKey p r)) (mergeRecords ex r) = dedupeKey p r
              rw [hkp]
              have hex2 : dedupeKey p ex = dedupeKey p r := by
                have hh := hexinv.2.1
                rwa [hkp] at hh
              exact dedupeKey_mergeRecords p ex r (dedupeKey p r) hex2 rfl
            · exact WFRecord_mergeRecords ex r hexinv.2.2 hr
          · exact hinv kv hkv'
        | none =>
          rw [dedupeStep_new acc r p hplace htids hfind, bindOk] at h
          refine ih hrest _ out ?_ ?_ h
          · intro kv hkv
            rcases List.mem_append.mp hkv with hkv' | hkv'
            · exact hinv kv hkv'
            · rcases List.mem_singleton.mp hkv' with rfl
              have hkp : keyPlace (dedupeKey p r) = p := keyPlace_dedupeKey p r
              refine ⟨?_, ?_, ?_⟩
              · show r.place_id = _
                rw [hplace, hkp]
              · show dedupeKey (keyPlace (dedupeKey p r))
                  { r with reform_type_ids := some (normalize_reform_type_ids r),
                           reform_type_id := none } = dedupeKey p r
                rw [hkp]
                rfl
              · exact ⟨hr.1, hr.2.1, hr.2.2.1, hr.2.2.2⟩
          · rw [List.pairwise_append]
            refine ⟨hpw, List.pairwise_singleton _ _, ?_⟩
            intro a ha b hb
            rcases List.mem_singleton.mp hb with rfl
            exact (dictFind_eq_none_iff _ _).mp hfind a ha


theorem dedupe_reforms_spec (reforms dd : List ReformRecord)
    (hrec : ∀ r ∈ reforms, WFRecord r)
    (h : dedupe_reforms reforms = .ok dd) :
    (∀ r ∈ dd, (∃ p, r.place_id = some p) ∧ WFRecord r) ∧
    (dd.map recKey).Pairwise (fun a b => a ≠ b) := by
  unfold dedupe_reforms at h
  cases hout : List.foldlM dedupeStep [] reforms with
  | error e =>
    rw [hout] at h
    exact absurd h (by simp [Bind.bind, Except.bind])
  | ok out =>
    rw [hout, bindOk] at h
    have hdd : dd = out.map Prod.snd := by
      injection h with hh
      exact hh.symm
    obtain ⟨hinv, hpw⟩ := dedupe_foldl_inv reforms hrec [] out
      (fun kv hkv => absurd hkv (List.not_mem_nil kv)) List.Pairwise.nil hout
    have hkeyeq : ∀ kv ∈ out, recKey kv.2 = kv.1 := by
      intro kv hkv
      obtain ⟨hp, hk, -⟩ := hinv kv hkv
      show recordKey (recPlace kv.2) kv.2 = kv.1
      rw [recordKey_eq_dedupeKey]
      have : recPlace kv.2 = keyPlace kv.1 := by
        unfold recPlace
        rw [hp]
        rfl
      rw [this, hk]
    constructor
    · intro r hr
      rw [hdd] at hr
      obtain ⟨kv, hkv, rfl⟩ := List.mem_map.mp hr
      obtain ⟨hp, -, hwf⟩ := hinv kv hkv
      exact ⟨⟨keyPlace kv.1, hp⟩, hwf⟩
    · rw [hdd, List.map_map]
      have : out.map (recKey ∘ Prod.snd) = out.map Prod.fst :=
        List.map_congr_left (fun kv hkv => hkeyeq kv hkv)
      rw [this]
      exact (List.pairwise_map).mpr hpw

theorem dd_key_inj (dd : List ReformRecord)
    (hK : (dd.map recKey).Pairwise (fun a b => a ≠ b)) :
    ∀ a ∈ dd, ∀ b ∈ dd, recKey a = recKey b → a = b := by
  intro a ha b hb hab
  by_contra hne
  have hpw : dd.Pairwise (fun x y => recKey x ≠ recKey y) := (List.pairwise_map).mp hK
  have hsym : Symmetric (fun x y : ReformRecord => recKey x ≠ recKey y) :=
    fun x y h => Ne.symm h
  exact (hpw.forall hsym ha hb hne) hab

/-! ## C6 — UPDATE statements preserve identity and are idempotent -/

theorem applyUpdate_id_place (row : ReformRow) (r : ReformRecord) :
    (applyUpdate row r).id = row.id ∧ (applyUpdate row r).place_id = row.place_id :=
  ⟨rfl, rfl⟩

theorem coalesce_some {α : Type} (v : α) (y : Option α) :
    coalesce (some v) y = some v := rfl

theorem coalesce_none {α : Type} (y : Option α) : coalesce none y = y := rfl

theorem recKey_doc (r : ReformRecord) (d : Nat) (h : r.policy_document_id = some d) :
    recKey r = .doc (recPlace r) d := by
  unfold recKey recordKey
  rw [h]

theorem recKey_nodoc (r : ReformRecord) (h : r.policy_document_id = none) :
    recKey r = .dateStatus (recPlace r) (r.adoption_date.getD sentinelDate)
      (r.status.getD "") := by
  unfold recKey recordKey
  rw [h]

theorem rowKey_doc (row : ReformRow) (d : Nat) (h : row.policy_document_id = some d) :
    rowKey row = .doc row.place_id d := by
  unfold rowKey
  rw [h]

theorem rowKey_nodoc (row : ReformRow) (h : row.policy_document_id = none) :
    rowKey row = .dateStatus row.place_id (row.adoption_date.getD sentinelDate)
      (row.status.getD "") := by
  unfold rowKey
  rw [h]

theorem applyUpdate_preserve (row : ReformRow) (r : ReformRecord)
    (hwf : WFRecord r) (hkey : rowKey row = recKey r) :
    (applyUpdate row r).policy_document_id = row.policy_document_id ∧
    rowKey (applyUpdate row r) = rowKey row := by
  cases hdoc : r.policy_document_id with
  | some d =>
    have hrk := recKey_doc r d hdoc
    cases hrowdoc : row.policy_document_id with
    | none =>
      rw [rowKey_nodoc row hrowdoc, hrk] at hkey
      exact absurd hkey (by simp)
    | some d' =>
      rw [rowKey_doc row d' hrowdoc, hrk] at hkey
      have hd : d' = d := by injection hkey with h1 h2
      have hdocpres : (applyUpdate row r).policy_document_id = row.policy_document_id := by
        show coalesce r.policy_document_id row.policy_document_id = _
        rw [hdoc, hrowdoc, hd]
        rfl
      have hdp2 : (applyUpdate row r).policy_document_id = some d' :=
        hdocpres.trans hrowdoc
      refine ⟨hdp2, ?_⟩
      rw [rowKey_doc _ d' hdp2, rowKey_doc row d' hrowdoc]
      rfl
  | none =>
    have hdocpres : (applyUpdate row r).policy_document_id = row.policy_document_id := by
      show coalesce r.policy_document_id row.policy_document_id = _
      rw [hdoc]
      rfl
    refine ⟨hdocpres, ?_⟩
    have hrk := recKey_nodoc r hdoc
    cases hrowdoc : row.policy_document_id with
    | some d' =>
      rw [rowKey_doc row d' hrowdoc, hrk] at hkey
      exact absurd hkey (by simp)
    | none =>
      rw [rowKey_nodoc row hrowdoc, hrk] at hkey
      rw [IdKey.dateStatus.injEq] at hkey
      have hdate : row.adoption_date.getD sentinelDate = r.adoption_date.getD sentinelDate :=
        hkey.2.1
      have hstatus : row.status.getD "" = r.status.getD "" := hkey.2.2
      rw [rowKey_nodoc _ (by rw [hdocpres, hrowdoc]), rowKey_nodoc row hrowdoc]
      have hd2 : (applyUpdate row r).adoption_date.getD sentinelDate
          = row.adoption_date.getD sentinelDate := by
        show (coalesce (r.adoption_date.map storeCanonDate) row.adoption_date).getD sentinelDate = _
        cases hrd : r.adoption_date with
        | none => rfl
        | some d =>
          have hcanon : storeCanonDate d = d := hwf.1 d (by rw [hrd]; rfl)
          rw [hdate, hrd]
          simp only [Option.map_some', hcanon, coalesce_some]
      have hs2 : (applyUpdate row r).status.getD "" = row.status.getD "" := by
        show (coalesce r.status row.status).getD "" = _
        cases hrs : r.status with
        | none => rfl
        | some st =>
          rw [hstatus, hrs]
          rfl
      rw [hd2, hs2]
      rfl

theorem coalesce_coalesce {α : Type} (x y : Option α) :
    coalesce x (coalesce x y) = coalesce x y := by
  cases x <;> rfl

theorem coalesce_self {α : Type} (x : Option α) : coalesce x x = x := by
  cases x <;> rfl

theorem merge_arrays_absorb (a b : Option (Finset String)) :
    merge_arrays_update (merge_arrays_update a b) b = merge_arrays_update a b := by
  rw [merge_arrays_update_eq, merge_arrays_update_eq]
  unfold merge_arrays arrFalsy arrMembers
  cases a with
  | none =>
    cases b with
    | none => simp
    | some t => by_cases ht : t = ∅ <;> simp [ht]
  | some s =>
    by_cases hs : s = ∅
    · cases b with
      | none => simp [hs]
      | some t => by_cases ht : t = ∅ <;> simp [hs, ht]
    · cases b with
      | none => simp [hs]
      | some t =>
        by_cases ht : t = ∅
        · simp [hs, ht]
        · have hu : ¬(s ∪ t = ∅) := by
            intro hh
            exact hs (Finset.union_eq_empty.mp hh).1
          simp [hs, ht, hu, Finset.union_assoc]

theorem merge_arrays_self (a : Option (Finset String)) (h : a ≠ some ∅) :
    merge_arrays_update a a = a := by
  rw [merge_arrays_update_eq]
  unfold merge_arrays arrFalsy arrMembers
  cases a with
  | none => simp
  | some s =>
    have hs : ¬(s = ∅) := fun hh => h (by rw [hh])
    simp [hs]

theorem applyUpdate_idem (row : ReformRow) (r : ReformRecord) :
    applyUpdate (applyUpdate row r) r = applyUpdate row r := by
  unfold applyUpdate
  dsimp only
  simp only [coalesce_coalesce, merge_arrays_absorb]

theorem applyUpdate_rowOfRecord (i : Nat) (r : ReformRecord) (hwf : WFRecord r) :
    applyUpdate (rowOfRecord i r) r = rowOfRecord i r := by
  unfold applyUpdate rowOfRecord
  dsimp only
  simp only [coalesce_self, merge_arrays_self r.scope hwf.2.1,
    merge_arrays_self r.land_use hwf.2.2.1, merge_arrays_self r.requirements hwf.2.2.2]

theorem rowKey_rowOfRecord (i : Nat) (r : ReformRecord) (hwf : WFRecord r) :
    rowKey (rowOfRecord i r) = recKey r := by
  cases hdoc : r.policy_document_id with
  | some d =>
    rw [rowKey_doc (rowOfRecord i r) d (by show r.policy_document_id = _; rw [hdoc]),
      recKey_doc r d hdoc]
    rfl
  | none =>
    rw [rowKey_nodoc (rowOfRecord i r) (by show r.policy_document_id = _; rw [hdoc]),
      recKey_nodoc r hdoc]
    have hd : (rowOfRecord i r).adoption_date.getD sentinelDate
        = r.adoption_date.getD sentinelDate := by
      show (r.adoption_date.map storeCanonDate).getD sentinelDate = _
      cases hrd : r.adoption_date with
      | none => rfl
      | some d =>
        have hcanon : storeCanonDate d = d := hwf.1 d (by rw [hrd]; rfl)
        simp only [Option.map_some', Option.getD_some, hcanon]
    rw [hd]
    rfl

/-! ## C6 — inserted rows and zip bookkeeping -/

theorem id_inj_of_pairwise (l : List ReformRow)
    (h : l.Pairwise (fun a b => a.id ≠ b.id)) :
    ∀ a ∈ l, ∀ b ∈ l, a.id = b.id → a = b := by
  intro a ha b hb hab
  by_contra hne
  have hsym : Symmetric (fun x y : ReformRow => x.id ≠ y.id) :=
    fun x y hh => Ne.symm hh
  exact (h.forall hsym ha hb hne) hab

theorem emapStep_eq : emapStep = fun m row => dictSet (rowKey row) row.id m := rfl

theorem insertedRows_eq (l : List ReformRecord) :
    ∀ start, insertedRows start l
      = (l.zip (List.range' start l.length)).map (fun p => rowOfRecord p.2 p.1) := by
  induction l with
  | nil => intro start; rfl
  | cons r rest ih =>
    intro start
    rw [List.length_cons, List.range'_succ, List.zip_cons_cons, List.map_cons]
    show rowOfRecord start r :: insertedRows (start + 1) rest = _
    rw [ih (start + 1)]

theorem mem_insertedRows (l : List ReformRecord) (start : Nat) (row : ReformRow)
    (h : row ∈ insertedRows start l) :
    ∃ r ∈ l, ∃ i, start ≤ i ∧ i < start + l.length ∧ row = rowOfRecord i r := by
  rw [insertedRows_eq] at h
  obtain ⟨p, hp, rfl⟩ := List.mem_map.mp h
  obtain ⟨hr, hi⟩ := List.of_mem_zip hp
  obtain ⟨h1, h2⟩ := List.mem_range'_1.mp hi
  exact ⟨p.1, hr, p.2, h1, h2, rfl⟩

theorem insertedRows_id_ge (l : List ReformRecord) :
    ∀ start, ∀ row ∈ insertedRows start l, start ≤ row.id := by
  induction l with
  | nil =>
    intro start row h
    exact absurd h (List.not_mem_nil row)
  | cons r rest ih =>
    intro start row h
    rcases List.mem_cons.mp h with rfl | h'
    · exact Nat.le_refl _
    · exact Nat.le_of_succ_le (ih (start + 1) row h')

theorem insertedRows_pairwise_id (l : List ReformRecord) :
    ∀ start, (insertedRows start l).Pairwise (fun a b => a.id ≠ b.id) := by
  induction l with
  | nil => intro start; exact List.Pairwise.nil
  | cons r rest ih =>
    intro start
    refine List.pairwise_cons.mpr ⟨?_, ih (start + 1)⟩
    intro row hrow
    have := insertedRows_id_ge rest (start + 1) row hrow
    show (rowOfRecord start r).id ≠ row.id
    show start ≠ row.id
    omega

theorem mem_zip_left {α β : Type} (l1 : List α) (l2 : List β)
    (hlen : l1.length = l2.length) : ∀ a ∈ l1, ∃ b, (a, b) ∈ l1.zip l2 := by
  induction l1 generalizing l2 with
  | nil =>
    intro a ha
    exact absurd ha (List.not_mem_nil a)
  | cons x xs ih =>
    intro a ha
    cases l2 with
    | nil => simp at hlen
    | cons y ys =>
      rcases List.mem_cons.mp ha with rfl | ha'
      · exact ⟨y, List.zip_cons_cons ▸ List.mem_cons_self _ _⟩
      · obtain ⟨b, hb⟩ := ih ys (by simpa using hlen) a ha'
        exact ⟨b, List.zip_cons_cons ▸ List.mem_cons_of_mem _ hb⟩

theorem zip_pairwise_fst {α β : Type} (l1 : List α) (l2 : List β)
    (R : α → α → Prop) (h : l1.Pairwise R) (hlen : l1.length ≤ l2.length) :
    (l1.zip l2).Pairwise (fun p q => R p.1 q.1) := by
  have hmap : (l1.zip l2).map Prod.fst = l1 := List.map_fst_zip l1 l2 hlen
  have : ((l1.zip l2).map Prod.fst).Pairwise R := by rw [hmap]; exact h
  exact (List.pairwise_map).mp this

/-! ## C6 — the existing-reform map's values trace to stored rows -/

theorem emap_source (rows : List ReformRow) (k : IdKey) (v : Nat)
    (h : dictFind k (rows.foldl emapStep []) = some v) :
    ∃ src ∈ rows, rowKey src = k ∧ src.id = v := by
  have h' : dictFind k (rows.foldl (fun m x => dictSet (rowKey x) x.id m) []) = some v := h
  rcases dictFind_foldl_source rowKey (fun x => x.id) rows [] k v h' with
    ⟨x, hx, hk, hv⟩ | hnone
  · exact ⟨x, hx, hk, hv⟩
  · exact absurd hnone (by simp [dictFind])

theorem emap_val_inj (rows : List ReformRow)
    (hids : rows.Pairwise (fun a b => a.id ≠ b.id))
    (k1 k2 : IdKey) (v : Nat)
    (h1 : dictFind k1 (rows.foldl emapStep []) = some v)
    (h2 : dictFind k2 (rows.foldl emapStep []) = some v) : k1 = k2 := by
  obtain ⟨s1, hs1, hk1, hv1⟩ := emap_source rows k1 v h1
  obtain ⟨s2, hs2, hk2, hv2⟩ := emap_source rows k2 v h2
  have hss : s1 = s2 := id_inj_of_pairwise rows hids s1 hs1 s2 hs2 (by rw [hv1, hv2])
  rw [← hk1, ← hk2, hss]

theorem upds_mem_spec (emap : List (IdKey × Nat)) (dd : List ReformRecord)
    (er : Nat × ReformRecord)
    (h : er ∈ dd.filterMap (fun r => (dictFind (recKey r) emap).map (fun eid => (eid, r)))) :
    er.2 ∈ dd ∧ dictFind (recKey er.2) emap = some er.1 := by
  obtain ⟨a, ha, hfa⟩ := List.mem_filterMap.mp h
  have hfa' : (dictFind (recKey a) emap).map (fun eid => (eid, a)) = some er := hfa
  cases hfind : dictFind (recKey a) emap with
  | none =>
    rw [hfind] at hfa'
    simp at hfa'
  | some v =>
    rw [hfind] at hfa'
    simp only [Option.map_some'] at hfa'
    obtain rfl : (v, a) = er := by injection hfa'
    exact ⟨ha, hfind⟩

theorem upds_pairwise_fst (emap : List (IdKey × Nat)) (dd : List ReformRecord)
    (hinj : ∀ k1 k2 v, dictFind k1 emap = some v → dictFind k2 emap = some v → k1 = k2)
    (hpw : dd.Pairwise (fun a b => recKey a ≠ recKey b)) :
    (dd.filterMap (fun r => (dictFind (recKey r) emap).map (fun eid => (eid, r)))).Pairwise
      (fun a b => a.1 ≠ b.1) := by
  induction dd with
  | nil => exact List.Pairwise.nil
  | cons r rest ih =>
    obtain ⟨hr, hrest⟩ := List.pairwise_cons.mp hpw
    cases hfind : dictFind (recKey r) emap with
    | none =>
      simp only [List.filterMap_cons, hfind, Option.map_none']
      exact ih hrest
    | some v =>
      simp only [List.filterMap_cons, hfind, Option.map_some']
      refine List.pairwise_cons.mpr ⟨?_, ih hrest⟩
      intro e he
      obtain ⟨he2, hfind2⟩ := upds_mem_spec emap rest e he
      show v ≠ e.1
      intro hv
      have hkeq : recKey r = recKey e.2 := hinj _ _ _ hfind (by rw [hv]; exact hfind2)
      exact hr e.2 he2 hkeq

/-! ## C6 — the existing-row query keeps every batch row in range -/

theorem queryFilter_congr (pl dl : List Nat) (row row' : ReformRow)
    (hp : row'.place_id = row.place_id)
    (hd : row'.policy_document_id = row.policy_document_id) :
    queryFilter pl dl row' = queryFilter pl dl row := by
  unfold queryFilter
  rw [hp, hd]

theorem queryFilter_rowOfRecord (dd : List ReformRecord) (r : ReformRecord) (i : Nat)
    (hr : r ∈ dd) (hp : ∃ p, r.place_id = some p) :
    queryFilter (dd.map recPlace) (dd.filterMap (fun x => x.policy_document_id))
      (rowOfRecord i r) = true := by
  unfold queryFilter
  refine (Bool.and_eq_true _ _).mpr ⟨?_, ?_⟩
  · show (dd.map recPlace).contains (rowOfRecord i r).place_id = true
    have : (rowOfRecord i r).place_id = recPlace r := rfl
    rw [this]
    exact mem_contains (List.mem_map.mpr ⟨r, hr, rfl⟩)
  · have hdoc : (rowOfRecord i r).policy_document_id = r.policy_document_id := rfl
    cases hrd : r.policy_document_id with
    | some d =>
      have hd : d ∈ dd.filterMap (fun x => x.policy_document_id) :=
        List.mem_filterMap.mpr ⟨r, hr, hrd⟩
      have hne : (dd.filterMap (fun x => x.policy_document_id)).isEmpty = false := by
        cases hE : (dd.filterMap (fun x => x.policy_document_id)).isEmpty with
        | false => rfl
        | true =>
          rw [List.isEmpty_iff] at hE
          rw [hE] at hd
          exact absurd hd (List.not_mem_nil d)
      rw [if_neg (by rw [hne]; exact Bool.false_ne_true)]
      rw [hdoc, hrd]
      exact mem_contains hd
    | none =>
      by_cases hE : (dd.filterMap (fun x => x.policy_document_id)).isEmpty = true
      · rw [if_pos hE, hdoc, hrd]
        rfl
      · rw [if_neg hE, hdoc, hrd]

theorem filter_insertedRows (dd news : List ReformRecord) (start : Nat)
    (hsub : ∀ r ∈ news, r ∈ dd) (hp : ∀ r ∈ dd, ∃ p, r.place_id = some p) :
    (insertedRows start news).filter
        (queryFilter (dd.map recPlace) (dd.filterMap (fun x => x.policy_document_id)))
      = insertedRows start news := by
  rw [List.filter_eq_self]
  intro row hrow
  obtain ⟨r, hr, i, -, -, rfl⟩ := mem_insertedRows news start row hrow
  exact queryFilter_rowOfRecord dd r i (hsub r hr) (hp r (hsub r hr))

/-! ## C6 — the engine after its insert step (tail of `bulk_upsert_reforms`,
lines 876-1011, factored out so a run can be described by its insert
outcome) -/

def upsertTail (db : DBState) (deduped : List ReformRecord) (ins : List Nat × DBState) :
    UpsertResult :=
  let emap := existingMap db deduped
  let part := partitionReforms emap deduped
  let upd := updateReforms ins.2 part.2
  let all_ids := ins.1 ++ upd.1
  let newmap := buildNewIdMap part.1 all_ids
  let fids := finalIds emap newmap deduped
  let links := insertTypeLinks upd.2.2.reform_reform_types (typePairs fids deduped)
  ⟨ins.1.length, upd.2.1, fids, deduped, { upd.2.2 with reform_reform_types := links }⟩

theorem bulk_upsert_unfold (db : DBState) (reforms dd : List ReformRecord)
    (hdd : dedupe_reforms reforms = .ok dd) (hne : dd.isEmpty = false) :
    bulk_upsert_reforms db reforms
      = insertReforms db (partitionReforms (existingMap db dd) dd).1 >>= fun ins =>
          pure (upsertTail db dd ins) := by
  unfold bulk_upsert_reforms
  rw [hdd, bindOk]
  rw [if_neg (by rw [hne]; exact Bool.false_ne_true)]
  rfl

theorem bulk_upsert_ok_elim (db : DBState) (reforms dd : List ReformRecord)
    (res : UpsertResult) (hdd : dedupe_reforms reforms = .ok dd)
    (hne : dd.isEmpty = false) (h : bulk_upsert_reforms db reforms = .ok res) :
    ∃ ids dbI, insertReforms db (partitionReforms (existingMap db dd) dd).1 = .ok (ids, dbI)
      ∧ res = upsertTail db dd (ids, dbI) := by
  rw [bulk_upsert_unfold db reforms dd hdd hne] at h
  cases hins : insertReforms db (partitionReforms (existingMap db dd) dd).1 with
  | error e =>
    rw [hins] at h
    exact absurd h (by simp [Bind.bind, Except.bind])
  | ok ins =>
    obtain ⟨ids, dbI⟩ := ins
    rw [hins, bindOk] at h
    refine ⟨ids, dbI, rfl, ?_⟩
    have h' : Except.ok (α := UpsertResult) (ε := PyErr)
        (upsertTail db dd (ids, dbI)) = .ok res := h
    injection h' with hh
    rw [← hh]

theorem insertReforms_nil (db : DBState) : insertReforms db [] = .ok ([], db) := rfl

/-! ## C6 — helpers for the two-run comparison -/

/-- The row filter of the existing-row query, as a function of the batch. -/
def ddFilter (dd : List ReformRecord) : ReformRow → Bool :=
  queryFilter (dd.map recPlace) (dd.filterMap (fun r => r.policy_document_id))

theorem existingMap_eq (db : DBState) (dd : List ReformRecord) :
    existingMap db dd = (db.reforms.filter (ddFilter dd)).foldl emapStep [] := rfl

theorem updFun_id (ups : List (Nat × ReformRecord)) (row : ReformRow) :
    (updFun ups row).id = row.id := by
  unfold updFun
  cases ups.find? (fun er => er.1 = row.id) with
  | none => rfl
  | some er => rfl

theorem updFun_of_none (ups : List (Nat × ReformRecord)) (row : ReformRow)
    (h : ups.find? (fun er => er.1 = row.id) = none) : updFun ups row = row := by
  unfold updFun
  rw [h]

theorem updFun_of_some (ups : List (Nat × ReformRecord)) (row : ReformRow)
    (er : Nat × ReformRecord) (h : ups.find? (fun er => er.1 = row.id) = some er) :
    updFun ups row = applyUpdate row er.2 := by
  unfold updFun
  rw [h]

theorem buildNewIdMap_nil (l : List Nat) : buildNewIdMap [] l = [] := rfl

theorem upsertTail_created (db : DBState) (dd : List ReformRecord)
    (ins : List Nat × DBState) : (upsertTail db dd ins).created = ins.1.length := rfl

theorem upsertTail_deduped (db : DBState) (dd : List ReformRecord)
    (ins : List Nat × DBState) : (upsertTail db dd ins).deduped = dd := rfl

theorem upsertTail_reform_ids (db : DBState) (dd : List ReformRecord)
    (ins : List Nat × DBState) :
    (upsertTail db dd ins).reform_ids
      = finalIds (existingMap db dd)
          (buildNewIdMap (partitionReforms (existingMap db dd) dd).1
            (ins.1 ++ (updateReforms ins.2 (partitionReforms (existingMap db dd) dd).2).1))
          dd := rfl

theorem upsertTail_db_reforms (db : DBState) (dd : List ReformRecord)
    (ins : List Nat × DBState) :
    (upsertTail db dd ins).db.reforms
      = (updateReforms ins.2 (partitionReforms (existingMap db dd) dd).2).2.2.reforms := rfl

theorem upsertTail_db_nextId (db : DBState) (dd : List ReformRecord)
    (ins : List Nat × DBState) :
    (upsertTail db dd ins).db.nextId
      = (updateReforms ins.2 (partitionReforms (existingMap db dd) dd).2).2.2.nextId := rfl

theorem upsertTail_db_uc (db : DBState) (dd : List ReformRecord)
    (ins : List Nat × DBState) :
    (upsertTail db dd ins).db.uniqueConstraint
      = (updateReforms ins.2
          (partitionReforms (existingMap db dd) dd).2).2.2.uniqueConstraint := rfl

theorem upsertTail_db_links (db : DBState) (dd : List ReformRecord)
    (ins : List Nat × DBState) :
    (upsertTail db dd ins).db.reform_reform_types
      = insertTypeLinks
          (updateReforms ins.2
            (partitionReforms (existingMap db dd) dd).2).2.2.reform_reform_types
          (typePairs (upsertTail db dd ins).reform_ids dd) := rfl

/-! ## C6 — facts about the first run -/

theorem run1_upds_facts (db : DBState) (dd : List ReformRecord) (hwf : DBWF db) :
    ∀ er ∈ (partitionReforms (existingMap db dd) dd).2,
      er.2 ∈ dd ∧ dictFind (recKey er.2) (existingMap db dd) = some er.1 ∧
      er.1 < db.nextId ∧
      ∀ row ∈ db.reforms, row.id = er.1 →
        rowKey row = recKey er.2 ∧ row ∈ db.reforms.filter (ddFilter dd) := by
  intro er her
  rw [partition_spec] at her
  obtain ⟨hmem, hfind⟩ := upds_mem_spec (existingMap db dd) dd er her
  have hfind' : dictFind (recKey er.2)
      ((db.reforms.filter (ddFilter dd)).foldl emapStep []) = some er.1 := by
    rw [← existingMap_eq]
    exact hfind
  obtain ⟨src, hsrc, hsrckey, hsrcid⟩ := emap_source _ _ _ hfind'
  have hsrcdb : src ∈ db.reforms := (List.mem_filter.mp hsrc).1
  refine ⟨hmem, hfind, ?_, ?_⟩
  · rw [← hsrcid]
    exact hwf.2 src hsrcdb
  · intro row hrow hid
    have hrs : row = src :=
      id_inj_of_pairwise db.reforms hwf.1 row hrow src hsrcdb (by rw [hid, hsrcid])
    rw [hrs]
    exact ⟨hsrckey, hsrc⟩

theorem run1_upds_pairwise (db : DBState) (dd : List ReformRecord) (hwf : DBWF db)
    (hK : (dd.map recKey).Pairwise (fun a b => a ≠ b)) :
    (partitionReforms (existingMap db dd) dd).2.Pairwise (fun a b => a.1 ≠ b.1) := by
  have hpwdd : dd.Pairwise (fun a b => recKey a ≠ recKey b) := List.pairwise_map.mp hK
  have hfiltids : (db.reforms.filter (ddFilter dd)).Pairwise (fun a b => a.id ≠ b.id) :=
    List.Pairwise.sublist (List.filter_sublist _) hwf.1
  have hinj : ∀ k1 k2 v, dictFind k1 (existingMap db dd) = some v →
      dictFind k2 (existingMap db dd) = some v → k1 = k2 := by
    intro k1 k2 v h1 h2
    exact emap_val_inj _ hfiltids k1 k2 v (by rw [← existingMap_eq]; exact h1)
      (by rw [← existingMap_eq]; exact h2)
  rw [partition_spec]
  exact upds_pairwise_fst (existingMap db dd) dd hinj hpwdd

theorem run1_db_spec (db : DBState) (dd : List ReformRecord) (ids : List Nat)
    (dbI : DBState) (hwf : DBWF db)
    (hK : (dd.map recKey).Pairwise (fun a b => a ≠ b))
    (hins : insertReforms db (partitionReforms (existingMap db dd) dd).1 = .ok (ids, dbI)) :
    (upsertTail db dd (ids, dbI)).db.reforms
        = db.reforms.map (updFun (partitionReforms (existingMap db dd) dd).2)
          ++ insertedRows db.nextId (partitionReforms (existingMap db dd) dd).1 ∧
    (upsertTail db dd (ids, dbI)).db.nextId
        = db.nextId + (partitionReforms (existingMap db dd) dd).1.length ∧
    DBWF (upsertTail db dd (ids, dbI)).db := by
  obtain ⟨hids, hIreforms, hInext, -, -, -, -, -⟩ := insertReforms_spec db _ ids dbI hins
  have hupdspw := run1_upds_pairwise db dd hwf hK
  have hfacts := run1_upds_facts db dd hwf
  have hupd1 := updateReforms_db dbI _ hupdspw
  have hinsid : ∀ row ∈ insertedRows db.nextId (partitionReforms (existingMap db dd) dd).1,
      updFun (partitionReforms (existingMap db dd) dd).2 row = row := by
    intro row hrow
    have hge := insertedRows_id_ge _ db.nextId row hrow
    refine updFun_of_none _ _ (List.find?_eq_none.mpr ?_)
    intro er her
    obtain ⟨-, -, hlt, -⟩ := hfacts er her
    simp only [decide_eq_true_eq]
    omega
  have hreforms : (upsertTail db dd (ids, dbI)).db.reforms
      = db.reforms.map (updFun (partitionReforms (existingMap db dd) dd).2)
        ++ insertedRows db.nextId (partitionReforms (existingMap db dd) dd).1 := by
    rw [upsertTail_db_reforms, hupd1]
    show dbI.reforms.map _ = _
    rw [hIreforms, List.map_append, map_id_of_mem _ _ hinsid]
  have hnext : (upsertTail db dd (ids, dbI)).db.nextId
      = db.nextId + (partitionReforms (existingMap db dd) dd).1.length := by
    rw [upsertTail_db_nextId, hupd1]
    exact hInext
  refine ⟨hreforms, hnext, ?_, ?_⟩
  · rw [hreforms]
    rw [List.pairwise_append]
    refine ⟨?_, insertedRows_pairwise_id _ db.nextId, ?_⟩
    · rw [List.pairwise_map]
      exact hwf.1.imp (fun {a b} h => by rw [updFun_id, updFun_id]; exact h)
    · intro a ha b hb
      obtain ⟨x, hx, rfl⟩ := List.mem_map.mp ha
      have hxa : (updFun (partitionReforms (existingMap db dd) dd).2 x).id = x.id :=
        updFun_id _ _
      have hxlt : x.id < db.nextId := hwf.2 x hx
      have hbge := insertedRows_id_ge _ db.nextId b hb
      rw [hxa]
      omega
  · intro row hrow
    rw [hreforms] at hrow
    rw [hnext]
    rcases List.mem_append.mp hrow with h | h
    · obtain ⟨x, hx, rfl⟩ := List.mem_map.mp h
      rw [updFun_id]
      have := hwf.2 x hx
      omega
    · obtain ⟨r, -, i, -, hilt, rfl⟩ := mem_insertedRows _ _ _ h
      show i < _
      omega

theorem news_spec (emap : List (IdKey × Nat)) (dd : List ReformRecord) :
    ∀ r ∈ (partitionReforms emap dd).1, r ∈ dd ∧ dictFind (recKey r) emap = none := by
  intro r hr
  rw [partition_spec] at hr
  have hr' : r ∈ dd.filter (fun r => (dictFind (recKey r) emap).isNone) := hr
  obtain ⟨h1, h2⟩ := List.mem_filter.mp hr'
  exact ⟨h1, Option.isNone_iff_eq_none.mp (by simpa using h2)⟩

theorem mem_news (emap : List (IdKey × Nat)) (dd : List ReformRecord) (r : ReformRecord)
    (hr : r ∈ dd) (hn : dictFind (recKey r) emap = none) :
    r ∈ (partitionReforms emap dd).1 := by
  rw [partition_spec]
  exact List.mem_filter.mpr ⟨hr, by simp [hn]⟩

theorem mem_upds (emap : List (IdKey × Nat)) (dd : List ReformRecord) (r : ReformRecord)
    (eid : Nat) (hr : r ∈ dd) (h : dictFind (recKey r) emap = some eid) :
    (eid, r) ∈ (partitionReforms emap dd).2 := by
  rw [partition_spec]
  exact List.mem_filterMap.mpr ⟨r, hr, by rw [h]; rfl⟩

theorem run2_row_preserve (db : DBState) (dd : List ReformRecord) (hwf : DBWF db)
    (hP : ∀ r ∈ dd, (∃ p, r.place_id = some p) ∧ WFRecord r) :
    ∀ row ∈ db.reforms,
      (updFun (partitionReforms (existingMap db dd) dd).2 row).id = row.id ∧
      rowKey (updFun (partitionReforms (existingMap db dd) dd).2 row) = rowKey row ∧
      ddFilter dd (updFun (partitionReforms (existingMap db dd) dd).2 row)
        = ddFilter dd row := by
  intro row hrow
  cases hf : (partitionReforms (existingMap db dd) dd).2.find?
      (fun er => er.1 = row.id) with
  | none =>
    rw [updFun_of_none _ _ hf]
    exact ⟨rfl, rfl, rfl⟩
  | some er =>
    have her := List.mem_of_find?_eq_some hf
    have hid : er.1 = row.id := by
      have := List.find?_some hf
      simpa using this
    obtain ⟨hmem, -, -, hmatch⟩ := run1_upds_facts db dd hwf er her
    obtain ⟨hkey, -⟩ := hmatch row hrow hid.symm
    have hwfr : WFRecord er.2 := (hP er.2 hmem).2
    obtain ⟨hdoc, hkeep⟩ := applyUpdate_preserve row er.2 hwfr hkey
    rw [updFun_of_some _ _ _ hf]
    exact ⟨rfl, hkeep, queryFilter_congr _ _ _ _ rfl hdoc⟩

theorem run2_filter (db : DBState) (dd : List ReformRecord) (ids : List Nat)
    (dbI : DBState) (hwf : DBWF db)
    (hP : ∀ r ∈ dd, (∃ p, r.place_id = some p) ∧ WFRecord r)
    (hK : (dd.map recKey).Pairwise (fun a b => a ≠ b))
    (hins : insertReforms db (partitionReforms (existingMap db dd) dd).1 = .ok (ids, dbI)) :
    (upsertTail db dd (ids, dbI)).db.reforms.filter (ddFilter dd)
      = (db.reforms.filter (ddFilter dd)).map
          (updFun (partitionReforms (existingMap db dd) dd).2)
        ++ insertedRows db.nextId (partitionReforms (existingMap db dd) dd).1 := by
  obtain ⟨hreforms, -, -⟩ := run1_db_spec db dd ids dbI hwf hK hins
  rw [hreforms, List.filter_append]
  rw [filter_map_comm_mem _ _ _
    (fun x hx => (run2_row_preserve db dd hwf hP x hx).2.2)]
  have hfi : (insertedRows db.nextId
        (partitionReforms (existingMap db dd) dd).1).filter (ddFilter dd)
      = insertedRows db.nextId (partitionReforms (existingMap db dd) dd).1 :=
    filter_insertedRows dd _ db.nextId
      (fun r hr => (news_spec (existingMap db dd) dd r hr).1) (fun r hr => (hP r hr).1)
  rw [hfi]

theorem run2_emap (db : DBState) (dd : List ReformRecord) (ids : List Nat)
    (dbI : DBState) (hwf : DBWF db)
    (hP : ∀ r ∈ dd, (∃ p, r.place_id = some p) ∧ WFRecord r)
    (hK : (dd.map recKey).Pairwise (fun a b => a ≠ b))
    (hins : insertReforms db (partitionReforms (existingMap db dd) dd).1 = .ok (ids, dbI)) :
    existingMap (upsertTail db dd (ids, dbI)).db dd
      = (insertedRows db.nextId (partitionReforms (existingMap db dd) dd).1).foldl
          emapStep (existingMap db dd) := by
  have hpres : ∀ x ∈ db.reforms.filter (ddFilter dd),
      rowKey (updFun (partitionReforms (existingMap db dd) dd).2 x) = rowKey x ∧
      (updFun (partitionReforms (existingMap db dd) dd).2 x).id = x.id := by
    intro x hx
    obtain ⟨h1, h2, -⟩ := run2_row_preserve db dd hwf hP x (List.mem_filter.mp hx).1
    exact ⟨h2, h1⟩
  rw [existingMap_eq, run2_filter db dd ids dbI hwf hP hK hins, List.foldl_append,
    foldl_emapStep_map _ _ _ hpres, ← existingMap_eq]

theorem run2_dict (db : DBState) (dd : List ReformRecord) (ids : List Nat)
    (dbI : DBState) (hwf : DBWF db)
    (hP : ∀ r ∈ dd, (∃ p, r.place_id = some p) ∧ WFRecord r)
    (hK : (dd.map recKey).Pairwise (fun a b => a ≠ b))
    (hins : insertReforms db (partitionReforms (existingMap db dd) dd).1 = .ok (ids, dbI)) :
    ∀ r ∈ dd,
      (∀ eid, dictFind (recKey r) (existingMap db dd) = some eid →
        dictFind (recKey r) (existingMap (upsertTail db dd (ids, dbI)).db dd) = some eid) ∧
      (dictFind (recKey r) (existingMap db dd) = none →
        ∃ i, dictFind (recKey r) (existingMap (upsertTail db dd (ids, dbI)).db dd) = some i ∧
          dictFind (recKey r)
            (buildNewIdMap (partitionReforms (existingMap db dd) dd).1
              (ids ++ (updateReforms dbI
                (partitionReforms (existingMap db dd) dd).2).1)) = some i) := by
  intro r hr
  obtain ⟨hids, -, -, -, -, -, -, -⟩ := insertReforms_spec db _ ids dbI hins
  have hkinj := dd_key_inj dd hK
  have hpwdd : dd.Pairwise (fun a b => recKey a ≠ recKey b) := List.pairwise_map.mp hK
  have hnews_sub : (partitionReforms (existingMap db dd) dd).1.Sublist dd := by
    rw [partition_spec]
    exact List.filter_sublist dd
  have hpwnews : (partitionReforms (existingMap db dd) dd).1.Pairwise
      (fun a b => recKey a ≠ recKey b) := List.Pairwise.sublist hnews_sub hpwdd
  have hwfnews : ∀ x ∈ (partitionReforms (existingMap db dd) dd).1, WFRecord x :=
    fun x hx => (hP x ((news_spec _ dd x hx).1)).2
  rw [run2_emap db dd ids dbI hwf hP hK hins]
  constructor
  · intro eid heid
    have hne : ∀ row ∈ insertedRows db.nextId (partitionReforms (existingMap db dd) dd).1,
        rowKey row ≠ recKey r := by
      intro row hrow hkeq
      obtain ⟨r', hr', i, -, -, rfl⟩ := mem_insertedRows _ _ _ hrow
      rw [rowKey_rowOfRecord i r' (hwfnews r' hr')] at hkeq
      have : r' = r := hkinj r' (hnews_sub.subset hr') r hr hkeq
      rw [this] at hr'
      rw [(news_spec _ dd r hr').2] at heid
      exact Option.noConfusion heid
    exact (dictFind_foldl_none rowKey (fun x => x.id) _ _ _ hne).trans heid
  · intro hnone
    have hrnews : r ∈ (partitionReforms (existingMap db dd) dd).1 :=
      mem_news _ dd r hr hnone
    have hlen : (partitionReforms (existingMap db dd) dd).1.length = ids.length := by
      rw [hids, List.length_range']
    obtain ⟨i, hpair⟩ := mem_zip_left _ ids hlen r hrnews
    have hpw_pairs : ((partitionReforms (existingMap db dd) dd).1.zip ids).Pairwise
        (fun p q => recKey p.1 ≠ recKey q.1) :=
      zip_pairwise_fst _ ids _ hpwnews (Nat.le_of_eq hlen)
    have hpw_pairs' : ((partitionReforms (existingMap db dd) dd).1.zip ids).Pairwise
        (fun p q => rowKey (rowOfRecord p.2 p.1) ≠ rowKey (rowOfRecord q.2 q.1)) := by
      refine hpw_pairs.imp_of_mem ?_
      intro a b ha hb h
      rw [rowKey_rowOfRecord _ _ (hwfnews a.1 (List.of_mem_zip ha).1),
        rowKey_rowOfRecord _ _ (hwfnews b.1 (List.of_mem_zip hb).1)]
      exact h
    refine ⟨i, ?_, ?_⟩
    · rw [insertedRows_eq, ← hids, List.foldl_map]
      have hfold := dictFind_foldl_mem (fun p : ReformRecord × Nat => rowKey (rowOfRecord p.2 p.1))
        (fun p => (rowOfRecord p.2 p.1).id)
        ((partitionReforms (existingMap db dd) dd).1.zip ids)
        (existingMap db dd) (r, i) hpair hpw_pairs'
      have hfold' : dictFind (rowKey (rowOfRecord i r))
          (List.foldl (fun x y => emapStep x (rowOfRecord y.2 y.1)) (existingMap db dd)
            ((partitionReforms (existingMap db dd) dd).1.zip ids))
          = some (rowOfRecord i r).id := hfold
      rw [rowKey_rowOfRecord i r (hwfnews r hrnews)] at hfold'
      exact hfold'
    · show dictFind (recKey r)
          (((partitionReforms (existingMap db dd) dd).1.zip
              (ids ++ (updateReforms dbI
                (partitionReforms (existingMap db dd) dd).2).1)).foldl
            (fun m p => dictSet (recKey p.1) p.2 m) []) = some i
      rw [zip_left_length _ ids _ hlen]
      exact dictFind_foldl_mem (fun p : ReformRecord × Nat => recKey p.1)
        (fun p => p.2) _ [] (r, i) hpair hpw_pairs

theorem run2_partition (db : DBState) (dd : List ReformRecord) (ids : List Nat)
    (dbI : DBState) (hwf : DBWF db)
    (hP : ∀ r ∈ dd, (∃ p, r.place_id = some p) ∧ WFRecord r)
    (hK : (dd.map recKey).Pairwise (fun a b => a ≠ b))
    (hins : insertReforms db (partitionReforms (existingMap db dd) dd).1 = .ok (ids, dbI)) :
    (partitionReforms (existingMap (upsertTail db dd (ids, dbI)).db dd) dd).1 = [] := by
  rw [partition_spec]
  show dd.filter _ = []
  rw [List.filter_eq_nil_iff]
  intro r hr
  obtain ⟨hupdpath, hinspath⟩ := run2_dict db dd ids dbI hwf hP hK hins r hr
  cases hfind : dictFind (recKey r) (existingMap db dd) with
  | some eid =>
    have h2 := hupdpath eid hfind
    simp [h2]
  | none =>
    obtain ⟨i, h2, -⟩ := hinspath hfind
    simp [h2]

theorem run2_noop (db : DBState) (dd : List ReformRecord) (ids : List Nat)
    (dbI : DBState) (hwf : DBWF db)
    (hP : ∀ r ∈ dd, (∃ p, r.place_id = some p) ∧ WFRecord r)
    (hK : (dd.map recKey).Pairwise (fun a b => a ≠ b))
    (hins : insertReforms db (partitionReforms (existingMap db dd) dd).1 = .ok (ids, dbI)) :
    ∀ row ∈ (upsertTail db dd (ids, dbI)).db.reforms,
      updFun (partitionReforms (existingMap (upsertTail db dd (ids, dbI)).db dd) dd).2 row
        = row := by
  obtain ⟨h2reforms, -, hdb2wf⟩ := run1_db_spec db dd ids dbI hwf hK hins
  have hkinj := dd_key_inj dd hK
  have hnews_sub : (partitionReforms (existingMap db dd) dd).1.Sublist dd := by
    rw [partition_spec]
    exact List.filter_sublist dd
  have hwfnews : ∀ x ∈ (partitionReforms (existingMap db dd) dd).1, WFRecord x :=
    fun x hx => (hP x ((news_spec _ dd x hx).1)).2
  intro row hrow
  cases hf : (partitionReforms (existingMap (upsertTail db dd (ids, dbI)).db dd) dd).2.find?
      (fun er => er.1 = row.id) with
  | none => exact updFun_of_none _ _ hf
  | some er =>
    have her := List.mem_of_find?_eq_some hf
    have hid : er.1 = row.id := by
      have := List.find?_some hf
      simpa using this
    rw [partition_spec] at her
    obtain ⟨hmem, hfind2⟩ :=
      upds_mem_spec (existingMap (upsertTail db dd (ids, dbI)).db dd) dd er her
    have hfind2' : dictFind (recKey er.2)
        (((upsertTail db dd (ids, dbI)).db.reforms.filter (ddFilter dd)).foldl emapStep [])
        = some er.1 := by
      rw [← existingMap_eq]
      exact hfind2
    obtain ⟨src, hsrc, hsrckey, hsrcid⟩ := emap_source _ _ _ hfind2'
    have hsrc_db2 : src ∈ (upsertTail db dd (ids, dbI)).db.reforms :=
      (List.mem_filter.mp hsrc).1
    have hrowsrc : row = src :=
      id_inj_of_pairwise _ hdb2wf.1 row hrow src hsrc_db2 ((hsrcid.trans hid).symm)
    have hkeyrow : rowKey row = recKey er.2 := by
      rw [hrowsrc]
      exact hsrckey
    rw [updFun_of_some _ _ _ hf]
    rw [h2reforms] at hrow
    rcases List.mem_append.mp hrow with hold | hins_row
    · obtain ⟨x, hx, hxeq⟩ := List.mem_map.mp hold
      cases hfx : (partitionReforms (existingMap db dd) dd).2.find?
          (fun e => e.1 = x.id) with
      | some e1 =>
        have hx1 := List.mem_of_find?_eq_some hfx
        have hidx : e1.1 = x.id := by
          have := List.find?_some hfx
          simpa using this
        obtain ⟨hmem1, -, -, hmatch1⟩ := run1_upds_facts db dd hwf e1 hx1
        obtain ⟨hkeyx, -⟩ := hmatch1 x hx hidx.symm
        have hwf1 : WFRecord e1.2 := (hP _ hmem1).2
        have hrow_eq : row = applyUpdate x e1.2 := by
          rw [← hxeq, updFun_of_some _ _ _ hfx]
        obtain ⟨-, hkeep⟩ := applyUpdate_preserve x e1.2 hwf1 hkeyx
        have hkr : rowKey row = recKey e1.2 := by
          rw [hrow_eq]
          rw [hkeep]
          exact hkeyx
        have hee : er.2 = e1.2 := hkinj er.2 hmem e1.2 hmem1 (by rw [← hkeyrow, hkr])
        rw [hee, hrow_eq, applyUpdate_idem]
      | none =>
        have hrx : row = x := by
          rw [← hxeq, updFun_of_none _ _ hfx]
        have hq : ddFilter dd row = true := (List.mem_filter.mp (hrowsrc ▸ hsrc)).2
        have hxfilt : x ∈ db.reforms.filter (ddFilter dd) :=
          List.mem_filter.mpr ⟨hx, by rw [← hrx]; exact hq⟩
        obtain ⟨eid', heid'⟩ := dictFind_foldl_isSome rowKey (fun z => z.id)
          (db.reforms.filter (ddFilter dd)) [] (recKey er.2)
          ⟨x, hxfilt, by rw [← hrx]; exact hkeyrow⟩
        have heid'' : dictFind (recKey er.2) (existingMap db dd) = some eid' := by
          rw [existingMap_eq]
          exact heid'
        have h2same := (run2_dict db dd ids dbI hwf hP hK hins er.2 hmem).1 eid' heid''
        have heq : eid' = er.1 := by
          rw [h2same] at hfind2
          injection hfind2
        have hmemupds : (eid', er.2) ∈ (partitionReforms (existingMap db dd) dd).2 :=
          mem_upds _ dd er.2 eid' hmem heid''
        have := List.find?_eq_none.mp hfx (eid', er.2) hmemupds
        simp only [decide_eq_true_eq] at this
        exact absurd (by rw [heq, hid, hrx] : eid' = x.id) this
    · obtain ⟨r', hr', i, -, -, rfl⟩ := mem_insertedRows _ _ _ hins_row
      have hkr' : rowKey (rowOfRecord i r') = recKey r' :=
        rowKey_rowOfRecord i r' (hwfnews r' hr')
      have hee : er.2 = r' :=
        hkinj er.2 hmem r' (hnews_sub.subset hr') (by rw [← hkeyrow, hkr'])
      rw [hee]
      exact applyUpdate_rowOfRecord i r' (hwfnews r' hr')

theorem run2_update_db (db : DBState) (dd : List ReformRecord) (ids : List Nat)
    (dbI : DBState) (hwf : DBWF db)
    (hP : ∀ r ∈ dd, (∃ p, r.place_id = some p) ∧ WFRecord r)
    (hK : (dd.map recKey).Pairwise (fun a b => a ≠ b))
    (hins : insertReforms db (partitionReforms (existingMap db dd) dd).1 = .ok (ids, dbI)) :
    (updateReforms (upsertTail db dd (ids, dbI)).db
        (partitionReforms (existingMap (upsertTail db dd (ids, dbI)).db dd) dd).2).2.2
      = (upsertTail db dd (ids, dbI)).db := by
  have hdb2wf := (run1_db_spec db dd ids dbI hwf hK hins).2.2
  have hpwdd : dd.Pairwise (fun a b => recKey a ≠ recKey b) := List.pairwise_map.mp hK
  have hfilt2 : ((upsertTail db dd (ids, dbI)).db.reforms.filter (ddFilter dd)).Pairwise
      (fun a b => a.id ≠ b.id) := List.Pairwise.sublist (List.filter_sublist _) hdb2wf.1
  have hinj2 : ∀ k1 k2 v,
      dictFind k1 (existingMap (upsertTail db dd (ids, dbI)).db dd) = some v →
      dictFind k2 (existingMap (upsertTail db dd (ids, dbI)).db dd) = some v → k1 = k2 := by
    intro k1 k2 v h1 h2
    exact emap_val_inj _ hfilt2 k1 k2 v (by rw [← existingMap_eq]; exact h1)
      (by rw [← existingMap_eq]; exact h2)
  have hpw2 : (partitionReforms (existingMap (upsertTail db dd (ids, dbI)).db dd) dd).2.Pairwise
      (fun a b => a.1 ≠ b.1) := by
    rw [partition_spec]
    exact upds_pairwise_fst _ dd hinj2 hpwdd
  rw [updateReforms_db _ _ hpw2]
  rw [map_id_of_mem _ _ (run2_noop db dd ids dbI hwf hP hK hins)]

theorem run2_fids (db : DBState) (dd : List ReformRecord) (ids : List Nat)
    (dbI : DBState) (hwf : DBWF db)
    (hP : ∀ r ∈ dd, (∃ p, r.place_id = some p) ∧ WFRecord r)
    (hK : (dd.map recKey).Pairwise (fun a b => a ≠ b))
    (hins : insertReforms db (partitionReforms (existingMap db dd) dd).1 = .ok (ids, dbI)) :
    finalIds (existingMap (upsertTail db dd (ids, dbI)).db dd) [] dd
      = (upsertTail db dd (ids, dbI)).reform_ids := by
  rw [upsertTail_reform_ids]
  unfold finalIds
  apply List.map_congr_left
  intro r hr
  obtain ⟨hupdpath, hinspath⟩ := run2_dict db dd ids dbI hwf hP hK hins r hr
  cases hfind : dictFind (recKey r) (existingMap db dd) with
  | some eid =>
    rw [hupdpath eid hfind]
  | none =>
    obtain ⟨i, h2, hnm⟩ := hinspath hfind
    rw [h2]
    exact hnm.symm

theorem run2_links (db : DBState) (dd : List ReformRecord) (ids : List Nat)
    (dbI : DBState) :
    insertTypeLinks (upsertTail db dd (ids, dbI)).db.reform_reform_types
        (typePairs (upsertTail db dd (ids, dbI)).reform_ids dd)
      = (upsertTail db dd (ids, dbI)).db.reform_reform_types := by
  apply insertTypeLinks_noop
  intro p hp
  rw [upsertTail_db_links]
  exact (mem_insertTypeLinks _ _ p).mpr (Or.inr hp)

theorem idem_core (db : DBState) (dd : List ReformRecord) (ids : List Nat)
    (dbI : DBState) (hwf : DBWF db)
    (hP : ∀ r ∈ dd, (∃ p, r.place_id = some p) ∧ WFRecord r)
    (hK : (dd.map recKey).Pairwise (fun a b => a ≠ b))
    (hins : insertReforms db (partitionReforms (existingMap db dd) dd).1 = .ok (ids, dbI)) :
    (partitionReforms (existingMap (upsertTail db dd (ids, dbI)).db dd) dd).1 = [] ∧
    (upsertTail (upsertTail db dd (ids, dbI)).db dd
        ([], (upsertTail db dd (ids, dbI)).db)).db = (upsertTail db dd (ids, dbI)).db ∧
    (upsertTail (upsertTail db dd (ids, dbI)).db dd
        ([], (upsertTail db dd (ids, dbI)).db)).reform_ids
      = (upsertTail db dd (ids, dbI)).reform_ids := by
  have hpart := run2_partition db dd ids dbI hwf hP hK hins
  have hupd := run2_update_db db dd ids dbI hwf hP hK hins
  have hfids : (upsertTail (upsertTail db dd (ids, dbI)).db dd
      ([], (upsertTail db dd (ids, dbI)).db)).reform_ids
      = (upsertTail db dd (ids, dbI)).reform_ids := by
    rw [upsertTail_reform_ids, hpart, buildNewIdMap_nil]
    exact run2_fids db dd ids dbI hwf hP hK hins
  refine ⟨hpart, ?_, hfids⟩
  have hdbform : (upsertTail (upsertTail db dd (ids, dbI)).db dd
      ([], (upsertTail db dd (ids, dbI)).db)).db
      = { (updateReforms (upsertTail db dd (ids, dbI)).db
            (partitionReforms
              (existingMap (upsertTail db dd (ids, dbI)).db dd) dd).2).2.2 with
          reform_reform_types := insertTypeLinks
            (updateReforms (upsertTail db dd (ids, dbI)).db
              (partitionReforms
                (existingMap (upsertTail db dd (ids, dbI)).db dd) dd).2).2.2.reform_reform_types
            (typePairs (upsertTail (upsertTail db dd (ids, dbI)).db dd
              ([], (upsertTail db dd (ids, dbI)).db)).reform_ids dd) } := rfl
  rw [hdbform, hupd, hfids, run2_links db dd ids dbI]

/-- **C6.** The batch upsert is idempotent: for a well-formed store and a batch
of well-formed reform records (canonical date strings, no explicitly-empty
array fields), if a first run of `bulk_upsert_reforms` succeeds, then a second
run of the same batch against the state it produced also succeeds, reports 0
created, returns the same per-record reform ids, and leaves the store —
reform rows with all their identity, scalar and array columns, and the
reform-type link table — exactly as the first run left it. -/
theorem C6_idempotent (db : DBState) (reforms : List ReformRecord) (res1 : UpsertResult)
    (hwf : DBWF db) (hrec : ∀ r ∈ reforms, WFRecord r)
    (h1 : bulk_upsert_reforms db reforms = .ok res1) :
    ∃ res2, bulk_upsert_reforms res1.db reforms = .ok res2 ∧
      res2.created = 0 ∧ res2.db = res1.db ∧ res2.reform_ids = res1.reform_ids := by
  cases hdd : dedupe_reforms reforms with
  | error e =>
    unfold bulk_upsert_reforms at h1
    rw [hdd] at h1
    exact absurd h1 (by simp [Bind.bind, Except.bind])
  | ok dd =>
    obtain ⟨hP, hK⟩ := dedupe_reforms_spec reforms dd hrec hdd
    cases hE : dd.isEmpty with
    | true =>
      have h1' : bulk_upsert_reforms db reforms
          = pure (⟨0, 0, [], [], db⟩ : UpsertResult) := by
        unfold bulk_upsert_reforms
        rw [hdd, bindOk, if_pos hE]
      have hres1 : res1 = ⟨0, 0, [], [], db⟩ := by
        rw [h1'] at h1
        have h'' : Except.ok (ε := PyErr) (⟨0, 0, [], [], db⟩ : UpsertResult)
            = .ok res1 := h1
        injection h'' with hh
        exact hh.symm
      refine ⟨⟨0, 0, [], [], res1.db⟩, ?_, rfl, rfl, ?_⟩
      · unfold bulk_upsert_reforms
        rw [hdd, bindOk, if_pos hE]
        rfl
      · rw [hres1]
    | false =>
      obtain ⟨ids, dbI, hins, hres⟩ := bulk_upsert_ok_elim db reforms dd res1 hdd hE h1
      subst hres
      obtain ⟨hpart, hdb, hfids⟩ := idem_core db dd ids dbI hwf hP hK hins
      refine ⟨upsertTail (upsertTail db dd (ids, dbI)).db dd
        ([], (upsertTail db dd (ids, dbI)).db), ?_, rfl, hdb, hfids⟩
      rw [bulk_upsert_unfold _ reforms dd hdd hE, hpart, insertReforms_nil, bindOk]
      rfl

/-- The result of upserting `[recA]` into an empty store: one row created with
id 1, tagged with type 3. -/
def res1C6 : UpsertResult :=
  ⟨1, 0, [some 1], [recA],
   { reforms := [rowOfRecord 1 recA], reform_reform_types := [(1, 3)], nextId := 2 }⟩

theorem C6_idempotent_witness :
    (DBWF {} ∧ (∀ r ∈ [recA], WFRecord r) ∧
      bulk_upsert_reforms {} [recA] = .ok res1C6) ∧
    ∃ res2, bulk_upsert_reforms res1C6.db [recA] = .ok res2 ∧
      res2.created = 0 ∧ res2.db = res1C6.db ∧ res2.reform_ids = res1C6.reform_ids := by
  have hwf : DBWF ({} : DBState) :=
    ⟨List.Pairwise.nil, fun row h => absurd h (List.not_mem_nil row)⟩
  have hrec : ∀ r ∈ [recA], WFRecord r := by
    intro r hr
    rw [List.mem_singleton] at hr
    subst hr
    refine ⟨?_, by decide, by decide, by decide⟩
    intro d hd
    have hd' : (none : Option String) = some d := hd
    exact Option.noConfusion hd'
  have h1 : bulk_upsert_reforms {} [recA] = .ok res1C6 := by decide
  exact ⟨⟨hwf, hrec, h1⟩, C6_idempotent {} [recA] res1C6 hwf hrec h1⟩

end AtlasSpec
